import Mathlib

/-!
Verification of the CTI-Platform feed orchestration and processing pipeline.

This file is a shallow embedding, in Lean 4, of the core components of the
repository (deduplicator, normalizer and fingerprinting, risk engine, feed
manager, pipeline, HTTP routing, dark-web monitor response capping, and the
scheduler), together with theorems settling the frozen specification claims.

Conventions of the embedding:
* Python dictionaries carrying fixed record shapes become Lean structures.
* Machine-level details are modelled over `Nat`/`Int`; 32-bit arithmetic in
  SHA-256 is `% 2 ^ 32`.
* Fallible Python code (code that raises) returns `Except PyErr` values; the
  constructors of `PyErr` name the raise sites of the source (all of which
  raise `ValueError` in Python; the specification's error taxonomy names
  them `ValidationError`, `ResponseTooLargeError`, ...).
* Side effects (file writes, database calls) are recorded as explicit event
  values so that theorems can speak about which persistence steps happened.
* Python `str.lower()` / `str.upper()` are modelled as ASCII case mapping
  (`asciiLower` / `asciiUpper`), which is exact on all data the system
  manipulates (feed names, IOC types, hex digests, keyword vocabulary).
-/

set_option autoImplicit false

namespace CTI

/-! ## Character and string prelude -/

/-- ASCII lower-casing of a single character, the fragment of Python
`str.lower` exercised by the repository. -/
def lowerChar (c : Char) : Char :=
  if 'A' ≤ c ∧ c ≤ 'Z' then Char.ofNat (c.toNat + 32) else c

/-- ASCII upper-casing of a single character, the fragment of Python
`str.upper` exercised by the repository. -/
def upperChar (c : Char) : Char :=
  if 'a' ≤ c ∧ c ≤ 'z' then Char.ofNat (c.toNat - 32) else c

/-- Python `s.lower()` (ASCII fragment). -/
def asciiLower (s : String) : String := String.mk (s.data.map lowerChar)

/-- Python `s.upper()` (ASCII fragment). -/
def asciiUpper (s : String) : String := String.mk (s.data.map upperChar)

/-- Boolean test that `n` is a prefix of `h` (on character lists). -/
def prefixB : List Char → List Char → Bool
  | [], _ => true
  | _ :: _, [] => false
  | a :: as, b :: bs => a == b && prefixB as bs

/-- Boolean substring test on character lists: Python's `needle in haystack`. -/
def subB (n : List Char) : List Char → Bool
  | [] => n.isEmpty
  | c :: rest => prefixB n (c :: rest) || subB n rest

/-- Python's `needle in haystack` on strings. -/
def containsSub (needle hay : String) : Bool := subB needle.data hay.data

/-- Python `s.strip()` (whitespace from both ends). -/
def pyStrip (s : String) : String :=
  String.mk
    (((s.data.dropWhile Char.isWhitespace).reverse.dropWhile
      Char.isWhitespace).reverse)

/-- Python `s.startswith(pre)`. -/
def startsWithB (s pre : String) : Bool := prefixB pre.data s.data

/-- Python `s.endswith(suf)`. -/
def endsWithB (s suf : String) : Bool := prefixB suf.data.reverse s.data.reverse

/-- Python `s[n:]` (character count). -/
def strDrop (s : String) (n : Nat) : String := String.mk (s.data.drop n)

theorem prefixB_iff (n h : List Char) : prefixB n h = true ↔ ∃ t, h = n ++ t := by
  induction n generalizing h with
  | nil => simp [prefixB]
  | cons a as ih =>
    cases h with
    | nil => simp [prefixB]
    | cons b bs =>
      simp only [prefixB, Bool.and_eq_true, beq_iff_eq, ih, List.cons_append]
      constructor
      · rintro ⟨rfl, t, rfl⟩; exact ⟨t, rfl⟩
      · rintro ⟨t, ht⟩
        injection ht with h1 h2
        exact ⟨h1.symm, t, h2⟩

theorem subB_iff (n h : List Char) : subB n h = true ↔ ∃ s t, h = s ++ n ++ t := by
  induction h with
  | nil =>
    simp only [subB, List.isEmpty_iff]
    constructor
    · rintro rfl; exact ⟨[], [], rfl⟩
    · rintro ⟨s, t, hst⟩
      rcases List.append_eq_nil.mp (List.append_eq_nil.mp hst.symm).1 with ⟨-, h2⟩
      exact h2
  | cons c rest ih =>
    simp only [subB, Bool.or_eq_true, prefixB_iff, ih]
    constructor
    · rintro (⟨t, ht⟩ | ⟨s, t, hst⟩)
      · exact ⟨[], t, by simp [ht]⟩
      · exact ⟨c :: s, t, by simp [hst]⟩
    · rintro ⟨s, t, hst⟩
      cases s with
      | nil => exact Or.inl ⟨t, by simpa using hst⟩
      | cons x xs =>
        rw [List.cons_append, List.cons_append] at hst
        injection hst with h1 h2
        exact Or.inr ⟨xs, t, h2⟩

/-- A match survives extending the haystack on the right. -/
theorem subB_append_right {n h : List Char} (e : List Char) (hs : subB n h = true) :
    subB n (h ++ e) = true := by
  rcases (subB_iff n h).mp hs with ⟨s, t, rfl⟩
  exact (subB_iff n _).mpr ⟨s, t ++ e, by simp⟩

/-- A match survives extending the haystack on the left. -/
theorem subB_append_left {n h : List Char} (e : List Char) (hs : subB n h = true) :
    subB n (e ++ h) = true := by
  rcases (subB_iff n h).mp hs with ⟨s, t, rfl⟩
  exact (subB_iff n _).mpr ⟨e ++ s, t, by simp⟩

/-- If a needle avoiding the final character matches in `pre ++ [c]`, it
already matches in `pre`. -/
theorem subB_dropLast {n pre : List Char} {c : Char} (hc : c ∉ n)
    (hs : subB n (pre ++ [c]) = true) : subB n pre = true := by
  rcases (subB_iff n _).mp hs with ⟨s, t, hst⟩
  rcases List.eq_nil_or_concat t with rfl | ⟨t', d, rfl⟩
  · rcases List.eq_nil_or_concat n with rfl | ⟨n', a, rfl⟩
    · exact (subB_iff _ _).mpr ⟨pre, [], by simp⟩
    · rw [List.concat_eq_append] at hc
      have h2 : pre ++ [c] = (s ++ n') ++ [a] := by simpa using hst
      rcases List.append_inj' h2 rfl with ⟨-, ha⟩
      injection ha with hca
      exact absurd (List.mem_append_right _ (List.mem_singleton.mpr hca)) hc
  · have h2 : pre ++ [c] = (s ++ n ++ t') ++ [d] := by simpa using hst
    rcases List.append_inj' h2 rfl with ⟨h3, -⟩
    exact (subB_iff _ _).mpr ⟨s, t', h3⟩

/-! ## Error model

Exceptions raised by the embedded code.  Each constructor corresponds to a
raise site (or class of propagated exceptions) of the source; `str(e)` is
modelled by `PyErr.msg`. -/

inductive PyErr where
  /-- The `ValueError` raised by `FeedManager.execute_feed` when
  `feed.validate` returns false (the spec's `ValidationError`). -/
  | validationError (m : String)
  /-- The `ValueError` raised by `RansomwareMonitorFeed._safe_read_response`
  when the 10 MB cap is exceeded (the spec's `ResponseTooLargeError`). -/
  | responseTooLarge (m : String)
  /-- Any other exception propagating out of feed code (network failures,
  missing keys, ...). -/
  | exc (m : String)
deriving DecidableEq

/-- Python `str(e)`: the message carried by the exception. -/
def PyErr.msg : PyErr → String
  | .validationError m => m
  | .responseTooLarge m => m
  | .exc m => m

/-! ## Deduplicator (`backend/processors/deduplicator.py`)

`Deduplicator._seen_fingerprints` is a set of fingerprint strings (every
fingerprint the program ever stores comes from `hashlib.sha256(...).hexdigest()`
and is a string); it is modelled as a duplicate-free `List String` grown by
`insertSeen`.  Items flowing through `deduplicate` are Python dicts whose
`"fingerprint"` key may be absent or falsy; any item type with a fingerprint
projection can flow through, mirroring the duck typing of the source. -/

/-- Types of items that may flow through `Deduplicator.deduplicate`:
`fpValue x = none` models a dict without a `"fingerprint"` key (or with value
`None`); `some ""` models a present-but-empty fingerprint.  Python's
`if not fingerprint` is `fpFalsy`. -/
class HasFingerprint (α : Type) where
  fpValue : α → Option String

export HasFingerprint (fpValue)

/-- Python's truthiness test `if not fingerprint` on the looked-up value. -/
def fpFalsy {α : Type} [HasFingerprint α] (x : α) : Bool :=
  match fpValue x with
  | none => true
  | some s => s == ""

/-- `set.add` on the seen-fingerprint set. -/
def insertSeen (seen : List String) (fp : String) : List String :=
  if fp ∈ seen then seen else fp :: seen

/-- One iteration of the loop body of `Deduplicator.deduplicate`, acting on
the accumulator `(unique_iocs, new_fingerprints-nonempty?, seen)`. -/
def dedupStep {α : Type} [HasFingerprint α] :
    List α × Bool × List String → α → List α × Bool × List String
  | (uniq, newFps, seen), ioc =>
    match fpValue ioc with
    | none => (uniq ++ [ioc], newFps, seen)
    | some fp =>
      if fp = "" then (uniq ++ [ioc], newFps, seen)
      else if fp ∈ seen then (uniq, newFps, seen)
      else (uniq ++ [ioc], true, insertSeen seen fp)

/-- `Deduplicator.deduplicate(iocs)`: returns the admitted items, whether the
cache file was rewritten (`if new_fingerprints: self._save_cache()`), and the
updated seen set. -/
def deduplicate {α : Type} [HasFingerprint α] (seen : List String) (iocs : List α) :
    List α × Bool × List String :=
  iocs.foldl dedupStep ([], false, seen)

/-- `Deduplicator.is_duplicate(fingerprint)`. -/
def isDuplicate (seen : List String) (fp : String) : Bool := fp ∈ seen

theorem dedupAux_uniq_append {α : Type} [HasFingerprint α] (iocs : List α)
    (uniq : List α) (nf : Bool) (seen : List String) :
    (iocs.foldl dedupStep (uniq, nf, seen)).1 =
      uniq ++ (iocs.foldl dedupStep ([], nf, seen)).1 := by
  induction iocs generalizing uniq nf seen with
  | nil => simp
  | cons ioc rest ih =>
    simp only [List.foldl_cons]
    rcases hfp : fpValue ioc with - | fp
    · rw [show dedupStep (uniq, nf, seen) ioc = (uniq ++ [ioc], nf, seen) by
          simp [dedupStep, hfp],
        show dedupStep (([] : List α), nf, seen) ioc = ([ioc], nf, seen) by
          simp [dedupStep, hfp],
        ih, ih [ioc]]
      simp
    · by_cases hemp : fp = ""
      · rw [show dedupStep (uniq, nf, seen) ioc = (uniq ++ [ioc], nf, seen) by
            simp [dedupStep, hfp, hemp],
          show dedupStep (([] : List α), nf, seen) ioc = ([ioc], nf, seen) by
            simp [dedupStep, hfp, hemp],
          ih, ih [ioc]]
        simp
      · by_cases hmem : fp ∈ seen
        · rw [show dedupStep (uniq, nf, seen) ioc = (uniq, nf, seen) by
              simp [dedupStep, hfp, hemp, hmem],
            show dedupStep (([] : List α), nf, seen) ioc = ([], nf, seen) by
              simp [dedupStep, hfp, hemp, hmem]]
          exact ih uniq nf seen
        · rw [show dedupStep (uniq, nf, seen) ioc =
                (uniq ++ [ioc], true, insertSeen seen fp) by
              simp [dedupStep, hfp, hemp, hmem],
            show dedupStep (([] : List α), nf, seen) ioc =
                ([ioc], true, insertSeen seen fp) by
              simp [dedupStep, hfp, hemp, hmem],
            ih, ih [ioc]]
          simp

theorem dedupAux_sublist {α : Type} [HasFingerprint α] (iocs : List α)
    (nf : Bool) (seen : List String) :
    (iocs.foldl dedupStep ([], nf, seen)).1.Sublist iocs := by
  induction iocs generalizing nf seen with
  | nil => simp
  | cons ioc rest ih =>
    simp only [List.foldl_cons]
    rcases hfp : fpValue ioc with - | fp
    · rw [show dedupStep (([] : List α), nf, seen) ioc = ([ioc], nf, seen) by
        simp [dedupStep, hfp]]
      rw [dedupAux_uniq_append]
      simpa using (ih nf seen).cons₂ ioc
    · by_cases hemp : fp = ""
      · rw [show dedupStep (([] : List α), nf, seen) ioc = ([ioc], nf, seen) by
          simp [dedupStep, hfp, hemp]]
        rw [dedupAux_uniq_append]
        simpa using (ih nf seen).cons₂ ioc
      · by_cases hmem : fp ∈ seen
        · rw [show dedupStep (([] : List α), nf, seen) ioc = ([], nf, seen) by
            simp [dedupStep, hfp, hemp, hmem]]
          exact (ih nf seen).cons ioc
        · rw [show dedupStep (([] : List α), nf, seen) ioc =
              ([ioc], true, insertSeen seen fp) by simp [dedupStep, hfp, hemp, hmem]]
          rw [dedupAux_uniq_append]
          simpa using (ih true (insertSeen seen fp)).cons₂ ioc

/-- The admitted items of one pass form a sublist (order preserved) of the
input batch. -/
theorem deduplicate_sublist {α : Type} [HasFingerprint α]
    (seen : List String) (iocs : List α) :
    (deduplicate seen iocs).1.Sublist iocs :=
  dedupAux_sublist iocs false seen

theorem mem_insertSeen {seen : List String} {fp x : String} :
    x ∈ insertSeen seen fp ↔ x = fp ∨ x ∈ seen := by
  unfold insertSeen
  split
  · rename_i hmem
    constructor
    · exact Or.inr
    · rintro (rfl | hx)
      · exact hmem
      · exact hx
  · exact List.mem_cons

theorem dedupAux_seen_mono {α : Type} [HasFingerprint α] (iocs : List α)
    (uniq : List α) (nf : Bool) (seen : List String) {x : String} (hx : x ∈ seen) :
    x ∈ (iocs.foldl dedupStep (uniq, nf, seen)).2.2 := by
  induction iocs generalizing uniq nf seen with
  | nil => simpa
  | cons ioc rest ih =>
    simp only [List.foldl_cons]
    rcases hfp : fpValue ioc with - | fp
    · rw [show dedupStep (uniq, nf, seen) ioc = (uniq ++ [ioc], nf, seen) by
        simp [dedupStep, hfp]]
      exact ih _ _ _ hx
    · by_cases hemp : fp = ""
      · rw [show dedupStep (uniq, nf, seen) ioc = (uniq ++ [ioc], nf, seen) by
          simp [dedupStep, hfp, hemp]]
        exact ih _ _ _ hx
      · by_cases hmem : fp ∈ seen
        · rw [show dedupStep (uniq, nf, seen) ioc = (uniq, nf, seen) by
            simp [dedupStep, hfp, hemp, hmem]]
          exact ih _ _ _ hx
        · rw [show dedupStep (uniq, nf, seen) ioc =
              (uniq ++ [ioc], true, insertSeen seen fp) by
            simp [dedupStep, hfp, hemp, hmem]]
          exact ih _ _ _ (mem_insertSeen.mpr (Or.inr hx))

/-- After a pass, every non-falsy fingerprint occurring in the batch is in the
seen set. -/
theorem dedupAux_covers {α : Type} [HasFingerprint α] (iocs : List α)
    (uniq : List α) (nf : Bool) (seen : List String) {ioc : α} {fp : String}
    (hmemb : ioc ∈ iocs) (hfp : fpValue ioc = some fp) (hemp : fp ≠ "") :
    fp ∈ (iocs.foldl dedupStep (uniq, nf, seen)).2.2 := by
  induction iocs generalizing uniq nf seen with
  | nil => cases hmemb
  | cons hd rest ih =>
    simp only [List.foldl_cons]
    rcases List.mem_cons.mp hmemb with rfl | htail
    · rw [show dedupStep (uniq, nf, seen) ioc =
          (if fp ∈ seen then (uniq, nf, seen)
           else (uniq ++ [ioc], true, insertSeen seen fp)) by
        simp [dedupStep, hfp, hemp]]
      split
      · exact dedupAux_seen_mono rest _ _ _ (by assumption)
      · exact dedupAux_seen_mono rest _ _ _ (mem_insertSeen.mpr (Or.inl rfl))
    · rcases hfp2 : fpValue hd with - | fp2
      · rw [show dedupStep (uniq, nf, seen) hd = (uniq ++ [hd], nf, seen) by
          simp [dedupStep, hfp2]]
        exact ih _ _ _ htail
      · by_cases hemp2 : fp2 = ""
        · rw [show dedupStep (uniq, nf, seen) hd = (uniq ++ [hd], nf, seen) by
            simp [dedupStep, hfp2, hemp2]]
          exact ih _ _ _ htail
        · by_cases hmem2 : fp2 ∈ seen
          · rw [show dedupStep (uniq, nf, seen) hd = (uniq, nf, seen) by
              simp [dedupStep, hfp2, hemp2, hmem2]]
            exact ih _ _ _ htail
          · rw [show dedupStep (uniq, nf, seen) hd =
                (uniq ++ [hd], true, insertSeen seen fp2) by
              simp [dedupStep, hfp2, hemp2, hmem2]]
            exact ih _ _ _ htail

/-- A pass over a batch whose fingerprints are all already seen admits
nothing. -/
theorem dedupAux_all_seen {α : Type} [HasFingerprint α] (iocs : List α)
    (nf : Bool) (seen : List String)
    (h : ∀ ioc ∈ iocs, ∃ fp, fpValue ioc = some fp ∧ fp ≠ "" ∧ fp ∈ seen) :
    (iocs.foldl dedupStep ([], nf, seen)).1 = [] := by
  induction iocs generalizing nf seen with
  | nil => simp
  | cons ioc rest ih =>
    rcases h ioc (List.mem_cons_self ioc rest) with ⟨fp, hfp, hemp, hmem⟩
    simp only [List.foldl_cons]
    rw [show dedupStep (([] : List α), nf, seen) ioc = ([], nf, seen) by
      simp [dedupStep, hfp, hemp, hmem]]
    exact ih nf seen fun i hi => h i (List.mem_cons_of_mem _ hi)

/-- Falsy-fingerprint items pass through `deduplicate` untouched: the falsy
part of the output is exactly the falsy part of the input. -/
theorem dedupAux_filter_falsy {α : Type} [HasFingerprint α] (iocs : List α)
    (uniq : List α) (nf : Bool) (seen : List String) :
    (iocs.foldl dedupStep (uniq, nf, seen)).1.filter fpFalsy =
      uniq.filter fpFalsy ++ iocs.filter fpFalsy := by
  induction iocs generalizing uniq nf seen with
  | nil => simp
  | cons ioc rest ih =>
    simp only [List.foldl_cons]
    rcases hfp : fpValue ioc with - | fp
    · rw [show dedupStep (uniq, nf, seen) ioc = (uniq ++ [ioc], nf, seen) by
        simp [dedupStep, hfp]]
      rw [ih]
      simp [List.filter_append, List.filter_cons, fpFalsy, hfp]
    · by_cases hemp : fp = ""
      · rw [show dedupStep (uniq, nf, seen) ioc = (uniq ++ [ioc], nf, seen) by
          simp [dedupStep, hfp, hemp]]
        rw [ih]
        simp [List.filter_append, List.filter_cons, fpFalsy, hfp, hemp]
      · by_cases hmem : fp ∈ seen
        · rw [show dedupStep (uniq, nf, seen) ioc = (uniq, nf, seen) by
            simp [dedupStep, hfp, hemp, hmem]]
          rw [ih]
          simp [List.filter_cons, fpFalsy, hfp, hemp]
        · rw [show dedupStep (uniq, nf, seen) ioc =
              (uniq ++ [ioc], true, insertSeen seen fp) by
            simp [dedupStep, hfp, hemp, hmem]]
          rw [ih]
          simp [List.filter_append, List.filter_cons, fpFalsy, hfp, hemp]

/-- Everything in the seen set after a pass was either seen before or is a
non-falsy fingerprint of some batch item. -/
theorem dedupAux_seen_sources {α : Type} [HasFingerprint α] (iocs : List α)
    (uniq : List α) (nf : Bool) (seen : List String) {x : String}
    (hx : x ∈ (iocs.foldl dedupStep (uniq, nf, seen)).2.2) :
    x ∈ seen ∨ ∃ ioc ∈ iocs, fpValue ioc = some x ∧ x ≠ "" := by
  induction iocs generalizing uniq nf seen with
  | nil => exact Or.inl (by simpa using hx)
  | cons ioc rest ih =>
    simp only [List.foldl_cons] at hx
    rcases hfp : fpValue ioc with - | fp
    · rw [show dedupStep (uniq, nf, seen) ioc = (uniq ++ [ioc], nf, seen) by
        simp [dedupStep, hfp]] at hx
      rcases ih _ _ _ hx with h | ⟨i, hi, h2⟩
      · exact Or.inl h
      · exact Or.inr ⟨i, List.mem_cons_of_mem _ hi, h2⟩
    · by_cases hemp : fp = ""
      · rw [show dedupStep (uniq, nf, seen) ioc = (uniq ++ [ioc], nf, seen) by
          simp [dedupStep, hfp, hemp]] at hx
        rcases ih _ _ _ hx with h | ⟨i, hi, h2⟩
        · exact Or.inl h
        · exact Or.inr ⟨i, List.mem_cons_of_mem _ hi, h2⟩
      · by_cases hmem : fp ∈ seen
        · rw [show dedupStep (uniq, nf, seen) ioc = (uniq, nf, seen) by
            simp [dedupStep, hfp, hemp, hmem]] at hx
          rcases ih _ _ _ hx with h | ⟨i, hi, h2⟩
          · exact Or.inl h
          · exact Or.inr ⟨i, List.mem_cons_of_mem _ hi, h2⟩
        · rw [show dedupStep (uniq, nf, seen) ioc =
              (uniq ++ [ioc], true, insertSeen seen fp) by
            simp [dedupStep, hfp, hemp, hmem]] at hx
          rcases ih _ _ _ hx with h | ⟨i, hi, h2⟩
          · rcases mem_insertSeen.mp h with rfl | h3
            · exact Or.inr ⟨ioc, List.mem_cons_self _ _, hfp, hemp⟩
            · exact Or.inl h3
          · exact Or.inr ⟨i, List.mem_cons_of_mem _ hi, h2⟩

/-- Running a batch of wholly non-falsy items twice with the cache carried
over admits nothing on the second pass. -/
theorem deduplicate_twice_empty {α : Type} [HasFingerprint α]
    (seen : List String) (iocs : List α)
    (h : ∀ ioc ∈ iocs, fpFalsy ioc = false) :
    (deduplicate (deduplicate seen iocs).2.2 iocs).1 = [] := by
  apply dedupAux_all_seen
  intro ioc hi
  have hf := h ioc hi
  rcases hfp : fpValue ioc with - | fp
  · rw [fpFalsy, hfp] at hf; cases hf
  · refine ⟨fp, rfl, ?_, ?_⟩
    · rw [fpFalsy, hfp] at hf; simpa using hf
    · exact dedupAux_covers iocs [] false seen hi hfp
        (by rw [fpFalsy, hfp] at hf; simpa using hf)

/-! ## SHA-256 (`hashlib.sha256`, FIPS 180-4)

The repository hashes through `hashlib.sha256(...).hexdigest()`.  The
function is embedded executably over byte lists, with 32-bit words as `Nat`
reduced `% 2 ^ 32`. -/

/-- 32-bit truncating addition. -/
def add32 (a b : Nat) : Nat := (a + b) % 2 ^ 32

/-- 32-bit right rotation (argument assumed `< 2 ^ 32`). -/
def rotr32 (n x : Nat) : Nat := ((x >>> n) ||| (x <<< (32 - n))) % 2 ^ 32

/-- 32-bit bitwise complement. -/
def not32 (x : Nat) : Nat := x ^^^ (2 ^ 32 - 1)

def bsig0 (x : Nat) : Nat := rotr32 2 x ^^^ rotr32 13 x ^^^ rotr32 22 x

def bsig1 (x : Nat) : Nat := rotr32 6 x ^^^ rotr32 11 x ^^^ rotr32 25 x

def ssig0 (x : Nat) : Nat := rotr32 7 x ^^^ rotr32 18 x ^^^ (x >>> 3)

def ssig1 (x : Nat) : Nat := rotr32 17 x ^^^ rotr32 19 x ^^^ (x >>> 10)

def chFn (x y z : Nat) : Nat := (x &&& y) ^^^ (not32 x &&& z)

def majFn (x y z : Nat) : Nat := (x &&& y) ^^^ (x &&& z) ^^^ (y &&& z)

/-- The eight 32-bit hash words. -/
structure Hash8 where
  a : Nat
  b : Nat
  c : Nat
  d : Nat
  e : Nat
  f : Nat
  g : Nat
  h : Nat

def sha256K : List Nat :=
  [1116352408, 1899447441, 3049323471, 3921009573,
   961987163, 1508970993, 2453635748, 2870763221,
   3624381080, 310598401, 607225278, 1426881987,
   1925078388, 2162078206, 2614888103, 3248222580,
   3835390401, 4022224774, 264347078, 604807628,
   770255983, 1249150122, 1555081692, 1996064986,
   2554220882, 2821834349, 2952996808, 3210313671,
   3336571891, 3584528711, 113926993, 338241895,
   666307205, 773529912, 1294757372, 1396182291,
   1695183700, 1986661051, 2177026350, 2456956037,
   2730485921, 2820302411, 3259730800, 3345764771,
   3516065817, 3600352804, 4094571909, 275423344,
   430227734, 506948616, 659060556, 883997877,
   958139571, 1322822218, 1537002063, 1747873779,
   1955562222, 2024104815, 2227730452, 2361852424,
   2428436474, 2756734187, 3204031479, 3329325298]

def sha256Init : Hash8 :=
  ⟨1779033703, 3144134277, 1013904242, 2773480762,
   1359893119, 2600822924, 528734635, 1541459225⟩

/-- Big-endian length field: the 8-byte encoding of the bit length. -/
def lenBytes (n : Nat) : List Nat :=
  (List.range 8).map fun i => (n >>> (8 * (7 - i))) % 256

/-- FIPS 180-4 padding: `0x80`, zeros to 56 mod 64, then the 64-bit length. -/
def sha256Pad (msg : List Nat) : List Nat :=
  let padZeros := (64 + 55 - msg.length % 64) % 64
  msg ++ 0x80 :: (List.replicate padZeros 0 ++ lenBytes (8 * msg.length))

/-- Big-endian packing of bytes into 32-bit words. -/
def bytesToWords : List Nat → List Nat
  | b0 :: b1 :: b2 :: b3 :: rest =>
    (((b0 * 256 + b1) * 256 + b2) * 256 + b3) :: bytesToWords rest
  | _ => []

/-- Chop a word list into 16-word blocks. -/
def toBlocks (ws : List Nat) : List (List Nat) :=
  if h : ws.isEmpty then [] else ws.take 16 :: toBlocks (ws.drop 16)
termination_by ws.length
decreasing_by
  simp only [List.isEmpty_iff] at h
  have hpos : 0 < ws.length := List.length_pos.mpr h
  simp only [List.length_drop]
  omega

/-- Message-schedule extension: appends `W[t] = σ1 W[t-2] + W[t-7] + σ0 W[t-15]
+ W[t-16]` the given number of times (48, growing 16 words to 64). -/
def extendSchedule (w : List Nat) : Nat → List Nat
  | 0 => w
  | fuel + 1 =>
    let t := w.length
    extendSchedule
      (w ++ [(ssig1 (w.getD (t - 2) 0) + w.getD (t - 7) 0 +
              ssig0 (w.getD (t - 15) 0) + w.getD (t - 16) 0) % 2 ^ 32]) fuel

/-- One compression round. -/
def sha256Round (s : Hash8) (kw : Nat × Nat) : Hash8 :=
  let t1 := (s.h + bsig1 s.e + chFn s.e s.f s.g + kw.1 + kw.2) % 2 ^ 32
  let t2 := (bsig0 s.a + majFn s.a s.b s.c) % 2 ^ 32
  ⟨(t1 + t2) % 2 ^ 32, s.a, s.b, s.c, (s.d + t1) % 2 ^ 32, s.e, s.f, s.g⟩

/-- Compress one 16-word block into the running hash. -/
def sha256Block (H : Hash8) (block : List Nat) : Hash8 :=
  let w := extendSchedule block 48
  let s := (sha256K.zip w).foldl sha256Round H
  ⟨add32 H.a s.a, add32 H.b s.b, add32 H.c s.c, add32 H.d s.d,
   add32 H.e s.e, add32 H.f s.f, add32 H.g s.g, add32 H.h s.h⟩

/-- `hashlib.sha256(msg)` over a byte list, as the eight hash words. -/
def sha256Bytes (msg : List Nat) : Hash8 :=
  (toBlocks (bytesToWords (sha256Pad msg))).foldl sha256Block sha256Init

/-- The 256-bit digest as a natural number (big-endian word order). -/
def hash8Nat (s : Hash8) : Nat :=
  ((((((s.a * 2 ^ 32 + s.b) * 2 ^ 32 + s.c) * 2 ^ 32 + s.d) * 2 ^ 32 + s.e) *
        2 ^ 32 + s.f) * 2 ^ 32 + s.g) * 2 ^ 32 + s.h

/-- Lower-case hex digit. -/
def hexChar (n : Nat) : Char :=
  if n < 10 then Char.ofNat (48 + n) else Char.ofNat (87 + n)

/-- 64-digit lower-case hex rendering of a 256-bit number: `hexdigest()`. -/
def toHex64 (n : Nat) : String :=
  String.mk ((List.range 64).map fun i => hexChar ((n >>> (4 * (63 - i))) % 16))

/-- Python `s.encode("utf-8")`. -/
def utf8Bytes (s : String) : List Nat := s.toUTF8.toList.map UInt8.toNat

/-- `hashlib.sha256(msg).hexdigest()`. -/
def sha256Hex (msg : List Nat) : String := toHex64 (hash8Nat (sha256Bytes msg))

/-- All eight hash words fit in 32 bits. -/
def Hash8.Bounded (s : Hash8) : Prop :=
  s.a < 2 ^ 32 ∧ s.b < 2 ^ 32 ∧ s.c < 2 ^ 32 ∧ s.d < 2 ^ 32 ∧
  s.e < 2 ^ 32 ∧ s.f < 2 ^ 32 ∧ s.g < 2 ^ 32 ∧ s.h < 2 ^ 32

theorem sha256Block_bounded (H : Hash8) (block : List Nat) :
    (sha256Block H block).Bounded := by
  refine ⟨?_, ?_, ?_, ?_, ?_, ?_, ?_, ?_⟩ <;>
    exact Nat.mod_lt _ (by norm_num)

theorem sha256Bytes_bounded (msg : List Nat) : (sha256Bytes msg).Bounded := by
  unfold sha256Bytes
  generalize toBlocks (bytesToWords (sha256Pad msg)) = blocks
  induction blocks using List.reverseRecOn with
  | nil =>
    refine ⟨?_, ?_, ?_, ?_, ?_, ?_, ?_, ?_⟩ <;> norm_num [sha256Init]
  | append_singleton bs b ih =>
    rw [List.foldl_append]
    exact sha256Block_bounded _ _

theorem combine32_lt {x y k : Nat} (hx : x < k) (hy : y < 2 ^ 32) :
    x * 2 ^ 32 + y < k * 2 ^ 32 := by
  calc x * 2 ^ 32 + y < x * 2 ^ 32 + 2 ^ 32 := by omega
    _ = (x + 1) * 2 ^ 32 := by ring
    _ ≤ k * 2 ^ 32 := Nat.mul_le_mul_right _ hx

theorem hash8Nat_lt {s : Hash8} (hb : s.Bounded) : hash8Nat s < 2 ^ 256 := by
  obtain ⟨h1, h2, h3, h4, h5, h6, h7, h8⟩ := hb
  have c1 := combine32_lt h1 h2
  have c2 := combine32_lt c1 h3
  have c3 := combine32_lt c2 h4
  have c4 := combine32_lt c3 h5
  have c5 := combine32_lt c4 h6
  have c6 := combine32_lt c5 h7
  have c7 := combine32_lt c6 h8
  calc hash8Nat s < 2 ^ 32 * 2 ^ 32 * 2 ^ 32 * 2 ^ 32 * 2 ^ 32 * 2 ^ 32 *
      2 ^ 32 * 2 ^ 32 := c7
    _ = 2 ^ 256 := by norm_num

/-! ## Fingerprinting (`IOCNormalizer._generate_fingerprint`) -/

/-- The string hashed by `_generate_fingerprint`: `f"{ioc_type}:{ioc_value}"`. -/
def fingerprintInput (iocType iocValue : String) : String :=
  iocType ++ ":" ++ iocValue

/-- `IOCNormalizer._generate_fingerprint(ioc_type, ioc_value)`:
`hashlib.sha256(f"{ioc_type}:{ioc_value}".encode("utf-8")).hexdigest()`. -/
def generateFingerprint (iocType iocValue : String) : String :=
  sha256Hex (utf8Bytes (fingerprintInput iocType iocValue))

/-! ## Normalizer (`backend/processors/normalizer.py`)

The regular expressions of `IOCNormalizer` are fixed patterns; each is
hand-compiled below into an equivalent checker over character lists. -/

def isAsciiDigit (c : Char) : Bool := '0' ≤ c && c ≤ '9'

def isAsciiAlpha (c : Char) : Bool := ('a' ≤ c && c ≤ 'z') || ('A' ≤ c && c ≤ 'Z')

def isAlnumChar (c : Char) : Bool := isAsciiDigit c || isAsciiAlpha c

def isHexChar (c : Char) : Bool :=
  isAsciiDigit c || ('a' ≤ c && c ≤ 'f') || ('A' ≤ c && c ≤ 'F')

/-- Numeric value of a decimal digit string. -/
def decDigitsVal (l : List Char) : Nat := l.foldl (fun a c => a * 10 + (c.toNat - 48)) 0

/-- One dotted-quad octet as accepted by `ipaddress.ip_address`: 1-3 decimal
digits, no leading zero (Python ≥ 3.9.5 rejects them), value ≤ 255. -/
def validOctet (s : String) : Bool :=
  !s.data.isEmpty && s.data.length ≤ 3 && s.data.all isAsciiDigit &&
  (s.data.length == 1 || !(s.data.headD '0' == '0')) && decDigitsVal s.data ≤ 255

/-- Python `ipaddress.ip_address` restricted to the textual forms reachable
from `_normalize_ip`: after the port-stripping step no colon remains in the
argument, so only IPv4 dotted-quad text can parse (IPv6 text requires colons);
everything else raises `ValueError`, which `_normalize_ip` turns into `None`.
`str(ip_obj)` re-renders the four octet values. -/
def parseIPv4 (s : String) : Option String :=
  let parts := s.splitOn "."
  if parts.length == 4 && parts.all validOctet then
    some (String.intercalate "." (parts.map fun p => toString (decDigitsVal p.data)))
  else none

/-- `IOCNormalizer._normalize_ip`. -/
def normalizeIp (ip : String) : Option String :=
  let ip' := if containsSub ":" ip && !startsWithB ip "[" then
      ((ip.splitOn ":").headD "") else ip
  parseIPv4 ip'

/-- Python `str.replace(pat, rep)` (non-overlapping, left to right). -/
def replaceAll (s pat rep : String) : String :=
  String.intercalate rep (s.splitOn pat)

/-- Python `str.rstrip(".")`. -/
def rstripDots (s : String) : String :=
  String.mk (s.data.reverse.dropWhile (· == '.')).reverse

/-- One DNS label of `DOMAIN_PATTERN`:
`[a-zA-Z0-9](?:[a-zA-Z0-9-]{0,61}[a-zA-Z0-9])?`. -/
def validLabel (s : String) : Bool :=
  let l := s.data
  !l.isEmpty && l.length ≤ 63 && isAlnumChar (l.headD 'x') &&
  isAlnumChar (l.getLastD 'x') && l.all fun c => isAlnumChar c || c == '-'

/-- `DOMAIN_PATTERN.match` (the pattern is fully anchored):
`^(?:label\.)+[a-zA-Z]{2,}$`. -/
def domainPatternMatch (s : String) : Bool :=
  let parts := s.splitOn "."
  parts.length ≥ 2 && parts.dropLast.all validLabel &&
  (let tld := (parts.getLastD "").data
   tld.length ≥ 2 && tld.all isAsciiAlpha)

/-- `IOCNormalizer._normalize_domain`. -/
def normalizeDomain (domain : String) : Option String :=
  let d := replaceAll (replaceAll domain "http://" "") "https://" ""
  let d := (d.splitOn "/").headD ""
  let d := (d.splitOn ":").headD ""
  let d := rstripDots d
  let d := asciiLower d
  if domainPatternMatch d then some d else none

/-- Split a character list at the first character satisfying `stop`,
returning the part before and the remainder (including the stop character). -/
def breakAt (stop : Char → Bool) : List Char → List Char × List Char
  | [] => ([], [])
  | c :: rest =>
    if stop c then ([], c :: rest)
    else
      let p := breakAt stop rest
      (c :: p.1, p.2)

/-- The `;params` split of `urllib.parse.urlparse`: parameters after the
first `;` of the last path segment are separated off (and then dropped by
`_normalize_url`, which never re-appends `parsed.params`). -/
def cutSemi (s : String) : String := String.mk (breakAt (· == ';') s.data).1

def splitParams (path : String) : String :=
  if path.data.contains '/' then
    let segs := path.splitOn "/"
    String.intercalate "/" (segs.dropLast ++ [cutSemi (segs.getLastD "")])
  else cutSemi path

/-- `IOCNormalizer._normalize_url`: prepend `https://` when no `http(s)://`
prefix is present, parse with `urlparse`, require a netloc, and reassemble
`scheme://netloc.lower()` + path + `?` + query (params and fragment
dropped). -/
def normalizeUrl (url : String) : Option String :=
  let url := if !(startsWithB url "http://" || startsWithB url "https://") then
      "https://" ++ url else url
  let sr : String × List Char :=
    if startsWithB url "http://" then ("http", (strDrop url 7).data)
    else ("https", (strDrop url 8).data)
  let netlocSplit := breakAt (fun c => c == '/' || c == '?' || c == '#') sr.2
  let netloc := String.mk netlocSplit.1
  if netloc == "" then none
  else
    let pathSplit := breakAt (fun c => c == '?' || c == '#') netlocSplit.2
    let path := splitParams (String.mk pathSplit.1)
    let query :=
      match pathSplit.2 with
      | '?' :: qrest => String.mk (breakAt (· == '#') qrest).1
      | _ => ""
    some (sr.1 ++ "://" ++ asciiLower netloc ++ path ++
      (if query == "" then "" else "?" ++ query))

/-- `IOCNormalizer._normalize_hash`: lower-case, classify a bare `"hash"`
type by length (32/40/64 hex), then validate against the declared type. -/
def normalizeHash (hashValue hashType : String) : Option String :=
  let hv := pyStrip (asciiLower hashValue)
  let hexLen : Nat → Bool := fun n => hv.data.length == n && hv.data.all isHexChar
  let ht := if hashType == "hash" then
      (if hexLen 32 then "md5" else if hexLen 40 then "sha1"
       else if hexLen 64 then "sha256" else "")
    else hashType
  if ht == "md5" && hexLen 32 then some hv
  else if ht == "sha1" && hexLen 40 then some hv
  else if ht == "sha256" && hexLen 64 then some hv
  else none

/-- `CVE_PATTERN.match` on the upper-cased input: `^CVE-\d{4}-\d{4,}$`. -/
def cvePatternMatch (s : String) : Bool :=
  startsWithB s "CVE-" &&
  (let rest := (strDrop s 4).data
   (rest.take 4).all isAsciiDigit && rest.length ≥ 9 &&
   rest.getD 4 ' ' == '-' && (rest.drop 5).all isAsciiDigit)

/-- `IOCNormalizer._normalize_cve`. -/
def normalizeCve (cve : String) : Option String :=
  let c := pyStrip (asciiUpper cve)
  if cvePatternMatch c then some c else none

def localPartChar (c : Char) : Bool :=
  isAlnumChar c || c == '.' || c == '_' || c == '%' || c == '+' || c == '-'

def mailDomChar (c : Char) : Bool := isAlnumChar c || c == '.' || c == '-'

/-- The final class of `EMAIL_PATTERN` is literally `[A-Z|a-z]{2,}`: letters
or the `|` character. -/
def mailTldChar (c : Char) : Bool := isAsciiAlpha c || c == '|'

/-- `EMAIL_PATTERN.match`:
`^[A-Za-z0-9._%+-]+@[A-Za-z0-9.-]+\.[A-Z|a-z]{2,}$`.  Since the final class
cannot contain a dot, a match exists exactly when the part after `@` splits
at its last dot into a nonempty `[A-Za-z0-9.-]+` part and a `{2,}` tail. -/
def emailPatternMatch (s : String) : Bool :=
  match s.splitOn "@" with
  | [lpart, dom] =>
    !lpart.data.isEmpty && lpart.data.all localPartChar &&
    (let parts := dom.splitOn "."
     let tail := (parts.getLastD "").data
     let front := String.intercalate "." parts.dropLast
     parts.length ≥ 2 && !front.data.isEmpty && front.data.all mailDomChar &&
     tail.length ≥ 2 && tail.all mailTldChar)
  | _ => false

/-- `IOCNormalizer._normalize_email`. -/
def normalizeEmail (email : String) : Option String :=
  let e := pyStrip (asciiLower email)
  if emailPatternMatch e then some e else none

/-- The risk breakdown attached by `RiskEngine.calculate_risk`. -/
structure RiskBreakdown where
  sourceCredibility : Nat
  exploitability : Nat
  sectorRelevance : Nat
  threatActorActivity : Nat
deriving DecidableEq

/-- An IOC dictionary as it flows through the pipeline.  Absent keys are
`none`/defaults (`ioc.get(key, default)`); `metadata` is a Python dict of
string keys and values (the shape all feed metadata in the system has). -/
structure Ioc where
  iocType : String := ""
  iocValue : String := ""
  source : Option String := none
  metadata : List (String × String) := []
  fingerprint : Option String := none
  normalized : Bool := false
  riskScore : Option Nat := none
  riskLevel : Option String := none
  riskBreakdown : Option RiskBreakdown := none
deriving DecidableEq

instance : HasFingerprint Ioc := ⟨Ioc.fingerprint⟩

/-- `IOCNormalizer.normalize(ioc)`: dispatch on the declared type, canonical-
ize, and attach the fingerprint; `None` on an empty or invalid value. -/
def IOCNormalizer.normalize (ioc : Ioc) : Option Ioc :=
  let iocType := asciiLower ioc.iocType
  let iocValue := pyStrip ioc.iocValue
  if iocValue == "" then none
  else
    let normalizedValue : Option String :=
      if iocType == "ip" then normalizeIp iocValue
      else if iocType == "domain" then normalizeDomain iocValue
      else if iocType == "url" then normalizeUrl iocValue
      else if iocType == "hash" || iocType == "md5" || iocType == "sha1" ||
          iocType == "sha256" then normalizeHash iocValue iocType
      else if iocType == "cve" then normalizeCve iocValue
      else if iocType == "email" then normalizeEmail iocValue
      else some (asciiLower iocValue)
    match normalizedValue with
    | none => none
    | some nv =>
      some { ioc with
        iocType := iocType, iocValue := nv, normalized := true,
        fingerprint := some (generateFingerprint iocType nv) }

/-- `IOCNormalizer.normalize_batch(iocs)`: keep the normalizable items. -/
def IOCNormalizer.normalizeBatch (iocs : List Ioc) : List Ioc :=
  iocs.foldl
    (fun acc i =>
      match IOCNormalizer.normalize i with
      | some n => acc ++ [n]
      | none => acc) []

/-! ## Risk engine (`backend/processors/risk_engine.py`)

`calculate_risk` renders the metadata dict with Python `str(...)` and scans
it for keywords.  `str` of a dict of string keys/values is
`{'k1': 'v1', 'k2': 'v2', ...}`; it is rendered below at the character-list
level (`pyStrDictChars`).  Braces and quotes are written via `Char.ofNat`
(123 `{`, 125 `}`, 39 `'`). -/

def braceOpen : Char := Char.ofNat 123

def braceClose : Char := Char.ofNat 125

def quoteCh : Char := Char.ofNat 39

/-- `'key': 'value'`. -/
def entryChars (kv : String × String) : List Char :=
  quoteCh :: kv.1.data ++ quoteCh :: ':' :: ' ' :: quoteCh :: kv.2.data ++ [quoteCh]

/-- Comma-separated entries. -/
def bodyChars : List (String × String) → List Char
  | [] => []
  | [kv] => entryChars kv
  | kv :: rest => entryChars kv ++ ',' :: ' ' :: bodyChars rest

/-- Python `str(metadata)` for a dict of strings. -/
def pyStrDictChars (m : List (String × String)) : List Char :=
  braceOpen :: bodyChars m ++ [braceClose]

/-- `str(metadata).lower()`. -/
def metadataStr (m : List (String × String)) : List Char :=
  (pyStrDictChars m).map lowerChar

/-- Python dict lookup `metadata.get(k)` (keys are unique in a dict; new keys
are appended at the end, so first match is the dict entry). -/
def pyGet : List (String × String) → String → Option String
  | [], _ => none
  | kv :: rest, k => if kv.1 == k then some kv.2 else pyGet rest k

/-- Python truthiness of `metadata.get(k)` for string values. -/
def truthyGet (m : List (String × String)) (k : String) : Bool :=
  match pyGet m k with
  | some v => !(v == "")
  | none => false

def SOURCE_CREDIBILITY : List (String × Nat) :=
  [("cisa_kev", 30), ("ransomware_live", 25), ("alienvault_otx", 18),
   ("malpedia", 15), ("unknown", 5)]

def HIGH_RISK_SECTORS : List String := ["government", "finance", "healthcare", "energy"]

def MEDIUM_RISK_SECTORS : List String := ["aviation", "technology", "telecom"]

/-- The `for cred_source, score in ...: if cred_source in source: break` loop. -/
def credLookup : List (String × Nat) → String → Nat
  | [], _ => 0
  | (k, v) :: rest, source => if containsSub k source then v else credLookup rest source

/-- Source credibility factor (default `"unknown"`, 5). -/
def sourceScoreOf (source : String) : Nat :=
  let s := credLookup SOURCE_CREDIBILITY source
  if s == 0 then 5 else s

/-- Exploitability factor: CVE base, escalated by keyword scan, each time
taking the `max` with the matched factor. -/
def exploitScoreOf (iocType : String) (m : List Char) : Nat :=
  let e0 := if iocType == "cve" then 30 else 0
  let e1 := if subB "ransomware".data m || subB "ransom".data m then max e0 20 else e0
  let e2 := if subB "campaign".data m || subB "active".data m then max e1 25 else e1
  let e3 := if subB "botnet".data m then max e2 15 else e2
  if subB "malware".data m then max e3 10 else e3

/-- Sector relevance factor: 20 for a high-risk sector keyword, else 10 for a
medium-risk one, else 0. -/
def sectorScoreOf (m : List Char) : Nat :=
  let hs := if HIGH_RISK_SECTORS.any (fun s => subB s.data m) then 20 else 0
  if hs == 0 then
    (if MEDIUM_RISK_SECTORS.any (fun s => subB s.data m) then 10 else 0)
  else hs

/-- Threat-actor factor: 15 for `group`/`threat_actor`, overridden to 20 by
`known_ransomware_campaign_use`. -/
def actorScoreOf (md : List (String × String)) : Nat :=
  let a0 := if truthyGet md "group" || truthyGet md "threat_actor" then 15 else 0
  if truthyGet md "known_ransomware_campaign_use" then 20 else a0

/-- The value returned by `RiskEngine.calculate_risk` (scores are
integer-valued, so `round(x, 2)` is the identity). -/
structure RiskAssessment where
  riskScore : Nat
  riskLevel : String
  breakdown : RiskBreakdown
deriving DecidableEq

/-- `RiskEngine.calculate_risk(ioc)`. -/
def RiskEngine.calculateRisk (ioc : Ioc) : RiskAssessment :=
  let source := asciiLower (ioc.source.getD "unknown")
  let iocType := asciiLower ioc.iocType
  let m := metadataStr ioc.metadata
  let sourceScore := sourceScoreOf source
  let exploitability := exploitScoreOf iocType m
  let sectorScore := sectorScoreOf m
  let actorScore := actorScoreOf ioc.metadata
  let riskScore := min (sourceScore + exploitability + sectorScore + actorScore) 100
  let riskLevel :=
    if riskScore ≥ 70 then "critical"
    else if riskScore ≥ 50 then "high"
    else if riskScore ≥ 30 then "medium"
    else "low"
  ⟨riskScore, riskLevel, ⟨sourceScore, exploitability, sectorScore, actorScore⟩⟩

/-- `RiskEngine.score_batch(iocs)`. -/
def RiskEngine.scoreBatch (iocs : List Ioc) : List Ioc :=
  iocs.map fun ioc =>
    let ra := RiskEngine.calculateRisk ioc
    { ioc with riskScore := some ra.riskScore, riskLevel := some ra.riskLevel,
               riskBreakdown := some ra.breakdown }

/-- The list of exploitability factors matched by an IOC (specification-side
companion of `exploitScoreOf`, used to state that the factor is a maximum and
not a sum). -/
def matchedFactors (iocType : String) (m : List Char) : List Nat :=
  (if iocType == "cve" then [30] else []) ++
  (if subB "ransomware".data m || subB "ransom".data m then [20] else []) ++
  (if subB "campaign".data m || subB "active".data m then [25] else []) ++
  (if subB "botnet".data m then [15] else []) ++
  (if subB "malware".data m then [10] else [])

theorem exploitScoreOf_eq_max_matched (iocType : String) (m : List Char) :
    exploitScoreOf iocType m = (matchedFactors iocType m).foldr max 0 := by
  unfold exploitScoreOf matchedFactors
  split_ifs <;> simp <;> omega

/-- Appending entries extends the rendered dict body on the right. -/
theorem bodyChars_append (m e : List (String × String)) :
    ∃ x, bodyChars (m ++ e) = bodyChars m ++ x := by
  induction m with
  | nil => exact ⟨bodyChars e, by simp [bodyChars]⟩
  | cons kv rest ih =>
    cases rest with
    | nil =>
      cases e with
      | nil => exact ⟨[], by simp⟩
      | cons e0 es =>
        exact ⟨',' :: ' ' :: bodyChars (e0 :: es), by simp [bodyChars]⟩
    | cons r rs =>
      rcases ih with ⟨x, hx⟩
      refine ⟨x, ?_⟩
      calc bodyChars ((kv :: r :: rs) ++ e)
          = entryChars kv ++ ',' :: ' ' :: bodyChars ((r :: rs) ++ e) := rfl
        _ = entryChars kv ++ ',' :: ' ' :: (bodyChars (r :: rs) ++ x) := by
            rw [hx]
        _ = bodyChars (kv :: r :: rs) ++ x := by
            simp [bodyChars]

theorem lowerChar_braceClose : lowerChar braceClose = braceClose := by decide

/-- A keyword match in `str(metadata).lower()` survives appending further
entries to the dict, provided the keyword does not contain the closing
brace. -/
theorem metadataStr_mono {kw : String} (hcb : braceClose ∉ kw.data)
    (m e : List (String × String))
    (h : subB kw.data (metadataStr m) = true) :
    subB kw.data (metadataStr (m ++ e)) = true := by
  rcases bodyChars_append m e with ⟨x, hx⟩
  have hm : metadataStr m =
      (braceOpen :: bodyChars m).map lowerChar ++ [braceClose] := by
    simp [metadataStr, pyStrDictChars, lowerChar_braceClose]
  have hme : metadataStr (m ++ e) =
      ((braceOpen :: bodyChars m).map lowerChar ++ x.map lowerChar) ++
        [braceClose] := by
    simp [metadataStr, pyStrDictChars, hx, lowerChar_braceClose]
  rw [hm] at h
  rw [hme]
  exact subB_append_right _ (subB_append_right _ (subB_dropLast hcb h))

theorem pyGet_append_of_some {m : List (String × String)} {k v : String}
    (e : List (String × String)) (h : pyGet m k = some v) :
    pyGet (m ++ e) k = some v := by
  induction m with
  | nil => simp [pyGet] at h
  | cons kv rest ih =>
    rw [show pyGet ((kv :: rest) ++ e) k =
        (if kv.1 == k then some kv.2 else pyGet (rest ++ e) k) from rfl]
    rw [show pyGet (kv :: rest) k =
        (if kv.1 == k then some kv.2 else pyGet rest k) from rfl] at h
    by_cases hc : (kv.1 == k) = true
    · rw [if_pos hc] at h ⊢
      exact h
    · rw [if_neg hc] at h ⊢
      exact ih h

theorem truthyGet_append {m : List (String × String)} {k : String}
    (e : List (String × String)) (h : truthyGet m k = true) :
    truthyGet (m ++ e) k = true := by
  unfold truthyGet at h ⊢
  rcases hg : pyGet m k with - | v
  · rw [hg] at h; cases h
  · rw [pyGet_append_of_some e hg]
    rw [hg] at h
    exact h

/-- Monotone step through one `max`-escalation of the keyword chain. -/
theorem chainStep_mono {b b' : Bool} {x y k : Nat} (hb : b = true → b' = true)
    (hx : x ≤ y) :
    (if b then max x k else x) ≤ (if b' then max y k else y) := by
  cases b with
  | false =>
    cases b' with
    | false => simpa using hx
    | true => simpa using le_trans hx (le_max_left y k)
  | true =>
    rw [hb rfl]
    simpa using max_le_max hx le_rfl

theorem exploitScoreOf_mono (iocType : String) (m e : List (String × String)) :
    exploitScoreOf iocType (metadataStr m) ≤
      exploitScoreOf iocType (metadataStr (m ++ e)) := by
  unfold exploitScoreOf
  have kw : ∀ s : String, braceClose ∉ s.data →
      subB s.data (metadataStr m) = true →
      subB s.data (metadataStr (m ++ e)) = true :=
    fun s hs => metadataStr_mono hs m e
  refine chainStep_mono ?_ (chainStep_mono ?_ (chainStep_mono ?_
    (chainStep_mono ?_ le_rfl)))
  · exact kw "malware" (by decide)
  · exact kw "botnet" (by decide)
  · intro h
    simp only [Bool.or_eq_true] at h ⊢
    rcases h with h1 | h1
    · exact Or.inl (kw "campaign" (by decide) h1)
    · exact Or.inr (kw "active" (by decide) h1)
  · intro h
    simp only [Bool.or_eq_true] at h ⊢
    rcases h with h1 | h1
    · exact Or.inl (kw "ransomware" (by decide) h1)
    · exact Or.inr (kw "ransom" (by decide) h1)

theorem sectorScoreOf_mono (m e : List (String × String)) :
    sectorScoreOf (metadataStr m) ≤ sectorScoreOf (metadataStr (m ++ e)) := by
  have hmono : ∀ l : List String, (∀ s ∈ l, braceClose ∉ s.data) →
      l.any (fun s => subB s.data (metadataStr m)) = true →
      l.any (fun s => subB s.data (metadataStr (m ++ e))) = true := by
    intro l hl h
    rcases List.any_eq_true.mp h with ⟨s, hs, hmatch⟩
    exact List.any_eq_true.mpr ⟨s, hs, metadataStr_mono (hl s hs) m e hmatch⟩
  have hhigh := hmono HIGH_RISK_SECTORS (by decide)
  have hmed := hmono MEDIUM_RISK_SECTORS (by decide)
  by_cases hH : HIGH_RISK_SECTORS.any (fun s => subB s.data (metadataStr m)) = true
  · simp [sectorScoreOf, hH, hhigh hH]
  · rw [Bool.not_eq_true] at hH
    by_cases hM : MEDIUM_RISK_SECTORS.any
        (fun s => subB s.data (metadataStr m)) = true
    · by_cases hH2 : HIGH_RISK_SECTORS.any
          (fun s => subB s.data (metadataStr (m ++ e))) = true
      · simp [sectorScoreOf, hH, hM, hH2] <;> norm_num
      · rw [Bool.not_eq_true] at hH2
        simp [sectorScoreOf, hH, hM, hH2, hmed hM]
    · rw [Bool.not_eq_true] at hM
      simp [sectorScoreOf, hH, hM]

theorem actorScoreOf_mono (m e : List (String × String)) :
    actorScoreOf m ≤ actorScoreOf (m ++ e) := by
  by_cases hk : truthyGet m "known_ransomware_campaign_use" = true
  · simp [actorScoreOf, hk, truthyGet_append e hk]
  · rw [Bool.not_eq_true] at hk
    by_cases hg : (truthyGet m "group" || truthyGet m "threat_actor") = true
    · have hg2 : (truthyGet (m ++ e) "group" ||
          truthyGet (m ++ e) "threat_actor") = true := by
        simp only [Bool.or_eq_true] at hg ⊢
        rcases hg with h1 | h1
        · exact Or.inl (truthyGet_append e h1)
        · exact Or.inr (truthyGet_append e h1)
      by_cases hk2 : truthyGet (m ++ e) "known_ransomware_campaign_use" = true
      · simp [actorScoreOf, hk, hg, hk2]
      · rw [Bool.not_eq_true] at hk2
        simp [actorScoreOf, hk, hg, hg2, hk2]
    · rw [Bool.not_eq_true] at hg
      simp [actorScoreOf, hk, hg]

/-! ## Raw feed payloads

`feed.fetch()` returns a JSON-like Python object (nested dicts/lists). -/

inductive RVal where
  | str : String → RVal
  | num : Int → RVal
  | bool : Bool → RVal
  | null : RVal
  | arr : List RVal → RVal
  | dict : List (String × RVal) → RVal

/-- Dict lookup `d.get(k)` / `d[k]` presence. -/
def dget : List (String × RVal) → String → Option RVal
  | [], _ => none
  | kv :: rest, k => if kv.1 == k then some kv.2 else dget rest k

/-! ## Feed manager (`backend/Orchestration/Feed_manager.py`) -/

/-- Side effects performed during `FeedManager.execute_feed`, in order:
the `feed.fetch(last_run=...)` call, `feed.save_raw_data` (evidence write),
`self.update_feed_status(...)` (statistics), `feed.save_state(ts)`
(run-state update). -/
inductive FMEvent where
  | fetchCall (lastRun : Option String)
  | saveRawData
  | updateStatus (success : Bool) (iocCount : Int) (errorMessage : Option String)
  | saveState (ts : String)
deriving DecidableEq

/-- A feed instance as `execute_feed` sees it: its name, the
`supports_incremental` capability attribute (always set by
`BaseFeed.__init__`), the persisted state-file content (`none` when the file
is missing or unreadable), and the behaviour of its `fetch`/`validate`
methods in this run. -/
structure MFeed where
  name : String
  supportsIncremental : Bool
  storedLastRun : Option String
  fetch : Option String → Except PyErr RVal
  validate : RVal → Bool

/-- `BaseFeed.get_last_run_time`: `None` for non-incremental feeds, else the
stored `last_run` marker. -/
def getLastRunTime (f : MFeed) : Option String :=
  if !f.supportsIncremental then none else f.storedLastRun

/-- `sum(d["count"] for d in raw_data["detections"].values())`; missing or
non-numeric counts raise. -/
def sumDetectionCounts : List (String × RVal) → Except PyErr Int
  | [] => .ok 0
  | (_, v) :: rest =>
    match v with
    | .dict d =>
      match dget d "count" with
      | some (.num n) => (sumDetectionCounts rest).map (n + ·)
      | some _ => .error (.exc "TypeError: unsupported operand type in sum")
      | none => .error (.exc "KeyError: count")
    | _ => .error (.exc "TypeError: detection entry is not subscriptable")

/-- `BaseFeed._extract_data_summary(data)["total_items"]`. -/
def extractDataSummary (data : RVal) : Nat :=
  match data with
  | .dict d =>
    match dget d "data" with
    | some (.dict inner) =>
      (inner.map fun kv =>
        match kv.2 with
        | .arr l => l.length
        | _ => 0).sum
    | some (.arr l) => l.length
    | _ => 0
  | _ => 0

/-- `"detections" in raw_data` followed by `raw_data["detections"].values()`:
`some dets` when the key holds a dict, `none` when the membership test is
false, an error when indexing or `.values()` would raise. -/
def detectionsOf (raw : RVal) : Except PyErr (Option (List (String × RVal))) :=
  match raw with
  | .dict d =>
    match dget d "detections" with
    | some (.dict dets) => .ok (some dets)
    | some _ => .error (.exc "AttributeError: detections has no values")
    | none => .ok none
  | .str s =>
    if containsSub "detections" s then
      .error (.exc "TypeError: string indices must be integers")
    else .ok none
  | .arr l =>
    if l.any fun v =>
        match v with
        | .str s => s == "detections"
        | _ => false then
      .error (.exc "TypeError: list indices must be integers")
    else .ok none
  | _ => .error (.exc "TypeError: argument is not iterable")

/-- Step 5 of `execute_feed`: the statistics item count. -/
def totalItems (raw : RVal) : Except PyErr Int := do
  match ← detectionsOf raw with
  | some dets => sumDetectionCounts dets
  | none => pure (Int.ofNat (extractDataSummary raw))

/-- `FeedManager.execute_feed(feed)` at wall-clock time `now`: the returned
payload (or raised exception) and the side effects in order. -/
def executeFeed (now : String) (feed : MFeed) : Except PyErr RVal × List FMEvent :=
  let lastRun := if feed.supportsIncremental then getLastRunTime feed else none
  match feed.fetch lastRun with
  | .error e =>
    (.error e, [.fetchCall lastRun, .updateStatus false 0 (some e.msg)])
  | .ok raw =>
    if !feed.validate raw then
      let msg := "Feed " ++ feed.name ++ " failed validation (no data returned)"
      (.error (.validationError msg),
       [.fetchCall lastRun, .updateStatus false 0 (some msg)])
    else
      match totalItems raw with
      | .error e =>
        (.error e, [.fetchCall lastRun, .saveRawData,
                    .updateStatus false 0 (some e.msg)])
      | .ok n =>
        (.ok raw, [.fetchCall lastRun, .saveRawData, .updateStatus true n none,
                   .saveState now])

/-- The arguments of the `fetch` calls recorded in an event list. -/
def fetchArgs (evs : List FMEvent) : List (Option String) :=
  evs.filterMap fun e =>
    match e with
    | .fetchCall lr => some lr
    | _ => none

/-- `FeedManager.is_feed_enabled(name)`: membership in the in-memory enabled
cache. -/
def isFeedEnabled (enabledCache : List String) (name : String) : Bool :=
  enabledCache.contains name

/-! ## Pipeline (`backend/Orchestration/pipeline.py`)

`CTIPipeline.process_feed` calls `feed_instance.fetch()` directly (with the
default `last_run=None`) and routes by feed name.  The concrete
`MalwareParser`/`VulnerabilityParser` classes imported by the pipeline are
not part of the source tree; following the specification they are carried as
components of the pipeline object (`ParserSet`), each turning the raw
payload into a list of raw indicator candidates. -/

/-- A victim record built by `_handle_ransomware_flow` (a dict with keys
`group_name`, `victim_name`, `victim_hash`, `discovery_date` — and no
`"fingerprint"` key). -/
structure Victim where
  groupName : String
  victimName : String
  victimHash : String
  discoveryDate : Option String
deriving DecidableEq

instance : HasFingerprint Victim := ⟨fun _ => none⟩

/-- One victim dict from a detections entry: `victim["title"]` must exist
and hash; `discovered_at` is optional. -/
def buildVictim (sourceId : String) (v : RVal) : Except PyErr Victim :=
  match v with
  | .dict d =>
    match dget d "title" with
    | some (.str title) =>
      .ok ⟨sourceId, title, sha256Hex (utf8Bytes title),
        match dget d "discovered_at" with
        | some (.str s) => some s
        | _ => none⟩
    | some _ => .error (.exc "AttributeError: title has no encode")
    | none => .error (.exc "KeyError: title")
  | _ => .error (.exc "TypeError: victim is not subscriptable")

/-- `info.get("victims", [])` iterated through `buildVictim`. -/
def victimsOfInfo (sourceId : String) (info : RVal) : Except PyErr (List Victim) :=
  match info with
  | .dict d =>
    match dget d "victims" with
    | none => .ok []
    | some (.arr vs) =>
      vs.foldl
        (fun acc v => do
          let l ← acc
          let w ← buildVictim sourceId v
          pure (l ++ [w]))
        (.ok [])
    | some _ => .error (.exc "TypeError: victims is not iterable")
  | _ => .error (.exc "AttributeError: info has no get")

/-- The flattened victim list over all detection sources. -/
def buildAllVictims (dets : List (String × RVal)) : Except PyErr (List Victim) :=
  dets.foldl
    (fun acc kv => do
      let l ← acc
      let vs ← victimsOfInfo kv.1 kv.2
      pure (l ++ vs))
    (.ok [])

/-- The per-feed result dict of `process_feed`: the failure shape is
`{"success": False, "feed_name": ..., "error": ...}` and the success shape is
`{"success": True, "feed": ..., "count": ..., "type": ...}` (note the two
different feed-name keys). -/
structure PFResult where
  success : Bool
  feedName : Option String := none
  feed : Option String := none
  error : Option String := none
  count : Option Nat := none
  rtype : Option String := none
deriving DecidableEq

/-- Side effects of the pipeline flows, in order. -/
inductive PEvent where
  | victimBulkIngest (n : Nat)
  | indicatorUpsert (n : Nat)
  | saveRawDataP
  | updateStatsP (feed : String) (success : Bool) (count : Option Nat)
      (error : Option String)
deriving DecidableEq

/-- Modelled from the spec: the pipeline's type-specific parsers
(`backend/parser/malware_parser.py` and `vulnerability_parser.py` are
imported by `pipeline.py` but absent from the tree).  Per §4.4 a parser
produces "a list of raw indicator candidates" from the raw payload; a
malformed record is skipped, not fatal. -/
structure ParserSet where
  vulnerability : RVal → List Ioc
  malware : RVal → List Ioc

/-- A feed instance as the pipeline sees it: its name and the behaviour of
its no-argument `fetch()` call in this run. -/
structure PFeed where
  name : String
  fetchP : Except PyErr RVal

/-- `CTIPipeline._select_parser`: vulnerability parser for names matching
`cisa`/`kev`/`otx`, malware parser otherwise. -/
def selectVulnerability (feedName : String) : Bool :=
  let fn := asciiLower feedName
  containsSub "cisa" fn || containsSub "kev" fn || containsSub "otx" fn

/-- `CTIPipeline._handle_ransomware_flow`. -/
def handleRansomwareFlow (feed : PFeed) (data : RVal) (seen : List String) :
    Except PyErr (PFResult × List String × List PEvent) := do
  let dets ← detectionsOf data
  let allVictims ←
    match dets with
    | some d => buildAllVictims d
    | none => pure []
  let r := deduplicate seen allVictims
  let cleanVictims := r.1
  let ingestEvents :=
    if cleanVictims.isEmpty then [] else [PEvent.victimBulkIngest cleanVictims.length]
  pure (⟨true, none, some feed.name, none, some cleanVictims.length, some "Victims"⟩,
    r.2.2,
    ingestEvents ++ [.saveRawDataP, .updateStatsP feed.name true (some cleanVictims.length) none])

/-- `CTIPipeline._handle_standard_ioc_flow`. -/
def handleStandardIocFlow (parsers : ParserSet) (feed : PFeed) (rawData : RVal)
    (seen : List String) : Except PyErr (PFResult × List String × List PEvent) :=
  let parsedData :=
    (if selectVulnerability feed.name then parsers.vulnerability else parsers.malware)
      rawData
  let normalized := IOCNormalizer.normalizeBatch parsedData
  let r := deduplicate seen normalized
  let cleanData := r.1
  let scoredData := RiskEngine.scoreBatch cleanData
  .ok (⟨true, none, some feed.name, none, some cleanData.length, some "Indicators"⟩,
    r.2.2,
    [.indicatorUpsert scoredData.length, .saveRawDataP,
     .updateStatsP feed.name true (some cleanData.length) none])

/-- `CTIPipeline.process_feed(feed_instance)`: fetch, route, and catch any
exception into a failure result plus a failure statistics update. -/
def processFeed (parsers : ParserSet) (seen : List String) (feed : PFeed) :
    PFResult × List String × List PEvent :=
  match feed.fetchP with
  | .error e =>
    (⟨false, some feed.name, none, some e.msg, none, none⟩, seen,
     [.updateStatsP feed.name false none (some e.msg)])
  | .ok raw =>
    let flow :=
      if containsSub "ransomware" (asciiLower feed.name) then
        handleRansomwareFlow feed raw seen
      else handleStandardIocFlow parsers feed raw seen
    match flow with
    | .ok res => res
    | .error e =>
      (⟨false, some feed.name, none, some e.msg, none, none⟩, seen,
       [.updateStatsP feed.name false none (some e.msg)])

/-- The aggregate returned by `run_all_feeds`: the dict literal
`{"execution_time": ..., "results": ...}`. -/
structure RunSummary where
  executionTime : String
  results : List PFResult
deriving DecidableEq

/-- `CTIPipeline.run_all_feeds(feed_instances)` at wall-clock `now`, with the
deduplication cache threaded through the sequential executions. -/
def runAllFeeds (parsers : ParserSet) (enabledCache : List String) (now : String)
    (seen : List String) (feeds : List PFeed) :
    RunSummary × List String × List PEvent :=
  let r := feeds.foldl
    (fun (acc : List PFResult × List String × List PEvent) f =>
      if isFeedEnabled enabledCache f.name then
        let pr := processFeed parsers acc.2.1 f
        (acc.1 ++ [pr.1], pr.2.1, acc.2.2 ++ pr.2.2)
      else acc)
    ([], seen, [])
  (⟨now, r.1⟩, r.2.1, r.2.2)

/-- The result dict with its keys in Python insertion order. -/
def PFResult.toRVal (r : PFResult) : RVal :=
  if r.success then
    .dict [("success", .bool true), ("feed", .str (r.feed.getD "")),
           ("count", .num (Int.ofNat (r.count.getD 0))),
           ("type", .str (r.rtype.getD ""))]
  else
    .dict [("success", .bool false), ("feed_name", .str (r.feedName.getD "")),
           ("error", .str (r.error.getD ""))]

/-- The summary dict literal built at the end of `run_all_feeds`. -/
def RunSummary.toDict (s : RunSummary) : List (String × RVal) :=
  [("execution_time", .str s.executionTime),
   ("results", .arr (s.results.map PFResult.toRVal))]

/-! ## HTTP routing (`backend/core/http_client.py`, `tor_client.py`)

`SecureHTTPClient.fetch` chooses between the Cloudflare-bypass scraper (the
anti-bot transport) and the standard session (which carries the SOCKS proxy
when one was configured).  `TorHTTPClient.fetch` always injects its proxies
into the request and forces `bypass_cloudflare=False` before delegating. -/

inductive Transport where
  | cloudflareScraper
  | standardSession
deriving DecidableEq

/-- The guard `url.strip().lower().endswith(".onion") or ".onion/" in url`
(note: the second test is case-sensitive on the raw URL). -/
def isOnionUrl (url : String) : Bool :=
  endsWithB (asciiLower (pyStrip url)) ".onion" || containsSub ".onion/" url

/-- The transport chosen by `SecureHTTPClient.fetch(url, bypass_cloudflare)`:
`if (bypass_cloudflare or "ransomware.live" in url) and not is_onion`. -/
def secureFetchTransport (url : String) (bypassCloudflare : Bool) : Transport :=
  if (bypassCloudflare || containsSub "ransomware.live" url) && !isOnionUrl url then
    .cloudflareScraper
  else .standardSession

/-- What one `TorHTTPClient.fetch(url)` call does: the SOCKS proxies are
always injected into the request kwargs, and the delegated
`SecureHTTPClient.fetch` runs with `bypass_cloudflare=False`. -/
structure TorFetch where
  transport : Transport
  proxiesApplied : Bool
deriving DecidableEq

def torFetch (url : String) : TorFetch :=
  ⟨secureFetchTransport url false, true⟩

/-- The network host of a URL (text between the scheme and the first
`/`, `?` or `#`), used to say which URLs identify `.onion` destinations. -/
def urlHost (url : String) : String :=
  let rest :=
    if startsWithB url "http://" then strDrop url 7
    else if startsWithB url "https://" then strDrop url 8
    else url
  String.mk (breakAt (fun c => c == '/' || c == '?' || c == '#') rest.data).1

/-- A URL identifies an anonymized-network destination when its host is a
`.onion` name (host names are case-insensitive). -/
def isOnionDest (url : String) : Bool :=
  endsWithB (asciiLower (urlHost url)) ".onion"

/-! ## Dark-web monitor bounded read (`backend/feeds/darkweb/monitor.py`) -/

/-- `RansomwareMonitorFeed.max_response_size`: 10 MB. -/
def maxResponseSize : Nat := 10 * 1024 * 1024

/-- `bytes.decode("utf-8", errors="ignore")`: standard UTF-8 decoding with
invalid bytes skipped.  The fuel argument (one unit per decoded or skipped
byte; the byte count always suffices) only bounds the recursion. -/
def decodeUtf8IgnoreAux : Nat → List Nat → List Char
  | 0, _ => []
  | _ + 1, [] => []
  | fuel + 1, b :: rest =>
    if b < 0x80 then Char.ofNat b :: decodeUtf8IgnoreAux fuel rest
    else if 0xC2 ≤ b ∧ b ≤ 0xDF then
      match rest with
      | b1 :: rest2 =>
        if 0x80 ≤ b1 ∧ b1 ≤ 0xBF then
          Char.ofNat ((b - 0xC0) * 64 + (b1 - 0x80)) ::
            decodeUtf8IgnoreAux fuel rest2
        else decodeUtf8IgnoreAux fuel rest
      | [] => []
    else if 0xE0 ≤ b ∧ b ≤ 0xEF then
      match rest with
      | b1 :: b2 :: rest3 =>
        if ((b == 0xE0 && 0xA0 ≤ b1 && b1 ≤ 0xBF) ||
            (b == 0xED && 0x80 ≤ b1 && b1 ≤ 0x9F) ||
            (b != 0xE0 && b != 0xED && 0x80 ≤ b1 && b1 ≤ 0xBF)) &&
            (0x80 ≤ b2 && b2 ≤ 0xBF) then
          Char.ofNat ((b - 0xE0) * 4096 + (b1 - 0x80) * 64 + (b2 - 0x80)) ::
            decodeUtf8IgnoreAux fuel rest3
        else decodeUtf8IgnoreAux fuel rest
      | _ => decodeUtf8IgnoreAux fuel rest
    else if 0xF0 ≤ b ∧ b ≤ 0xF4 then
      match rest with
      | b1 :: b2 :: b3 :: rest4 =>
        if ((b == 0xF0 && 0x90 ≤ b1 && b1 ≤ 0xBF) ||
            (b == 0xF4 && 0x80 ≤ b1 && b1 ≤ 0x8F) ||
            (b != 0xF0 && b != 0xF4 && 0x80 ≤ b1 && b1 ≤ 0xBF)) &&
            (0x80 ≤ b2 && b2 ≤ 0xBF) && (0x80 ≤ b3 && b3 ≤ 0xBF) then
          Char.ofNat ((b - 0xF0) * 262144 + (b1 - 0x80) * 4096 +
              (b2 - 0x80) * 64 + (b3 - 0x80)) ::
            decodeUtf8IgnoreAux fuel rest4
        else decodeUtf8IgnoreAux fuel rest
      | _ => decodeUtf8IgnoreAux fuel rest
    else decodeUtf8IgnoreAux fuel rest

def decodeUtf8Ignore (l : List Nat) : List Char :=
  decodeUtf8IgnoreAux l.length l

/-- The chunk loop of `_safe_read_response`: accumulate sizes, raise past the
cap, decode and collect otherwise. -/
def safeReadAux : List (List Nat) → Nat → List String → Except PyErr String
  | [], _, content => .ok (String.join content)
  | chunk :: rest, totalSize, content =>
    let totalSize := totalSize + chunk.length
    if totalSize > maxResponseSize then
      .error (.responseTooLarge "Response exceeded safety limit (10MB).")
    else safeReadAux rest totalSize (content ++ [String.mk (decodeUtf8Ignore chunk)])

/-- `RansomwareMonitorFeed._safe_read_response(response)` over the streamed
chunks (`iter_content(chunk_size=8192)` yields chunks of at most 8 KB, but
the guard works for any chunking). -/
def safeReadResponse (chunks : List (List Nat)) : Except PyErr String :=
  safeReadAux chunks 0 []

theorem safeReadAux_cons (chunk : List Nat) (rest : List (List Nat)) (t : Nat)
    (content : List String) :
    safeReadAux (chunk :: rest) t content =
      if t + chunk.length > maxResponseSize then
        .error (.responseTooLarge "Response exceeded safety limit (10MB).")
      else
        safeReadAux rest (t + chunk.length)
          (content ++ [String.mk (decodeUtf8Ignore chunk)]) := rfl

theorem safeReadAux_error_of_large (chunks : List (List Nat)) (t : Nat)
    (content : List String) (ht : t ≤ maxResponseSize)
    (h : t + (chunks.map List.length).sum > maxResponseSize) :
    safeReadAux chunks t content =
      .error (.responseTooLarge "Response exceeded safety limit (10MB).") := by
  induction chunks generalizing t content with
  | nil => simp at h; omega
  | cons chunk rest ih =>
    rw [safeReadAux_cons]
    by_cases hgt : t + chunk.length > maxResponseSize
    · rw [if_pos hgt]
    · rw [if_neg hgt]
      refine ih _ _ (by omega) ?_
      simp at h ⊢
      omega

theorem safeReadAux_ok_of_small (chunks : List (List Nat)) (t : Nat)
    (content : List String) (h : t + (chunks.map List.length).sum ≤ maxResponseSize) :
    ∃ s, safeReadAux chunks t content = .ok s := by
  induction chunks generalizing t content with
  | nil => exact ⟨String.join content, rfl⟩
  | cons chunk rest ih =>
    rw [safeReadAux_cons]
    have hle : ¬(t + chunk.length > maxResponseSize) := by
      simp at h
      omega
    rw [if_neg hle]
    refine ih _ _ ?_
    simp at h ⊢
    omega

theorem safeReadAux_extend_error (p s : List (List Nat)) (t : Nat) (content : List String)
    {e : PyErr} (h : safeReadAux p t content = .error e) :
    safeReadAux (p ++ s) t content = .error e := by
  induction p generalizing t content with
  | nil => simp [safeReadAux] at h
  | cons chunk rest ih =>
    rw [safeReadAux_cons] at h
    rw [List.cons_append, safeReadAux_cons]
    by_cases hgt : t + chunk.length > maxResponseSize
    · rw [if_pos hgt] at h ⊢
      exact h
    · rw [if_neg hgt] at h ⊢
      exact ih _ _ h

/-! ## Scheduler (`backend/Orchestration/scheduler.py`)

The per-task run state is driven by two kinds of atomic events: a poll-loop
tick at wall-clock `now` (the `_run_loop` due-check followed by the
`_execute_wrapper` guard and its `is_running = True`), and the completion of
an in-flight execution at wall-clock `now` (the `try` tail and the `finally`
block).  `active` counts in-flight executions of the task — the quantity the
overlap claim is about. -/

/-- `self._tasks[task_id]` for one task. -/
structure STask where
  intervalSeconds : Nat
  enabled : Bool
  lastRun : Option Nat
  nextRun : Nat
  runCount : Nat
  isRunning : Bool
deriving DecidableEq

structure SchedState where
  task : STask
  active : Nat
deriving DecidableEq

/-- `Scheduler.schedule_task`: `next_run = datetime.now()` (run immediately),
`run_count = 0`, `is_running = False`. -/
def scheduleTask (intervalMinutes : Nat) (enabled : Bool) (now : Nat) : SchedState :=
  ⟨⟨intervalMinutes * 60, enabled, none, now, 0, false⟩, 0⟩

/-- The `_execute_wrapper` entry: skip when `is_running`, else mark running
and begin an execution. -/
def wrapperStart (s : SchedState) : SchedState :=
  if s.task.isRunning then s
  else ⟨{ s.task with isRunning := true }, s.active + 1⟩

/-- One `_run_loop` due-check for this task at wall-clock `now`:
`if now >= next_run and not is_running`, spawn the wrapper. -/
def loopTick (now : Nat) (s : SchedState) : SchedState :=
  if s.task.enabled && decide (now ≥ s.task.nextRun) && !s.task.isRunning then
    wrapperStart s
  else s

/-- Completion of an in-flight execution at wall-clock `now`: on success the
`try` tail bumps `last_run`/`run_count`; the `finally` block always clears
`is_running` and sets `next_run = now + interval` (from the finishing time). -/
def taskFinish (now : Nat) (failed : Bool) (s : SchedState) : SchedState :=
  if s.active = 0 then s
  else
    let t1 :=
      if failed then s.task
      else { s.task with lastRun := some now, runCount := s.task.runCount + 1 }
    ⟨{ t1 with isRunning := false, nextRun := now + s.task.intervalSeconds },
     s.active - 1⟩

inductive SEv where
  | tick (now : Nat)
  | finish (now : Nat) (failed : Bool)
deriving DecidableEq

def schedStep (s : SchedState) : SEv → SchedState
  | .tick now => loopTick now s
  | .finish now failed => taskFinish now failed s

/-- The scheduler's behaviour on a whole event sequence. -/
def schedRun (s : SchedState) (evs : List SEv) : SchedState :=
  evs.foldl schedStep s

/-- The `is_running` flag counts the in-flight executions exactly. -/
def SchedState.Consistent (s : SchedState) : Prop :=
  s.active = if s.task.isRunning then 1 else 0

theorem loopTick_consistent {s : SchedState} (hc : s.Consistent) (now : Nat) :
    (loopTick now s).Consistent := by
  unfold SchedState.Consistent at hc ⊢
  unfold loopTick wrapperStart
  by_cases hcond :
      (s.task.enabled && decide (now ≥ s.task.nextRun) && !s.task.isRunning) = true
  · rw [if_pos hcond]
    have hr : s.task.isRunning = false := by
      simp only [Bool.and_eq_true, Bool.not_eq_true'] at hcond
      exact hcond.2
    rw [if_neg (by simp [hr])]
    rw [hr] at hc
    simp at hc
    simp [hc]
  · rw [if_neg hcond]
    exact hc

theorem taskFinish_consistent {s : SchedState} (hc : s.Consistent) (now : Nat)
    (failed : Bool) : (taskFinish now failed s).Consistent := by
  unfold SchedState.Consistent at hc ⊢
  unfold taskFinish
  by_cases h0 : s.active = 0
  · rw [if_pos h0]
    exact hc
  · rw [if_neg h0]
    have hr : s.task.isRunning = true := by
      by_contra hcon
      rw [Bool.not_eq_true] at hcon
      rw [hcon] at hc
      simp at hc
      exact h0 hc
    rw [hr] at hc
    simp at hc
    cases failed <;> simp [hc]

theorem schedStep_consistent {s : SchedState} (hc : s.Consistent) (e : SEv) :
    (schedStep s e).Consistent := by
  cases e with
  | tick now => exact loopTick_consistent hc now
  | finish now failed => exact taskFinish_consistent hc now failed

theorem schedRun_consistent (s : SchedState) (hc : s.Consistent) (evs : List SEv) :
    (schedRun s evs).Consistent := by
  induction evs generalizing s with
  | nil => exact hc
  | cons e rest ih => exact ih _ (schedStep_consistent hc e)

/-! ## Claim theorems -/

/-- C1: For every feed object whose `supports_incremental` attribute is
false, `FeedManager.execute_feed` always invokes `feed.fetch` with
`last_run = None`, regardless of any previously persisted run timestamp: the
event trace of the execution contains exactly one `fetch` call and its
argument is `none`. -/
theorem C1_nonincremental_fetch_gets_none (feed : MFeed) (now : String)
    (h : feed.supportsIncremental = false) :
    fetchArgs (executeFeed now feed).2 = [none] := by
  unfold executeFeed
  rw [h]
  simp only [Bool.false_eq_true, if_false]
  rcases hf : feed.fetch none with e | raw
  · simp [fetchArgs]
  · by_cases hv : feed.validate raw = true
    · simp only [hv, Bool.not_true, Bool.false_eq_true, if_false]
      rcases ht : totalItems raw with e2 | n
      · simp [fetchArgs]
      · simp [fetchArgs]
    · rw [Bool.not_eq_true] at hv
      simp only [hv, Bool.not_false, if_true]
      simp [fetchArgs]

/-- A stub feed that declares `supports_incremental = False` while carrying a
previously persisted run timestamp in its state file. -/
def feedC1 : MFeed :=
  ⟨"StubFeed", false, some "2024-01-01T00:00:00",
   fun _ => .ok (.dict [("data", .arr [])]), fun _ => true⟩

theorem C1_witness :
    feedC1.supportsIncremental = false ∧
    fetchArgs (executeFeed "2024-02-02T00:00:00" feedC1).2 = [none] :=
  ⟨rfl, C1_nonincremental_fetch_gets_none feedC1 "2024-02-02T00:00:00" rfl⟩

/-- C4: For every feed execution in which `feed.validate` returns false,
`FeedManager.execute_feed` raises the validation error (a `ValueError` in the
source; the spec's `ValidationError`), the run is recorded in feed statistics
as a failure with zero ingested count, and no persistence step (raw-evidence
write or run-state update) is performed: the execution returns exactly the
validation error and the trace `[fetch, update_status(failure, 0, msg)]`,
which contains no `save_raw_data` and no `save_state` event. -/
theorem C4_validation_failure_no_persistence (feed : MFeed) (now : String)
    (raw : RVal)
    (hfetch : feed.fetch
      (if feed.supportsIncremental then getLastRunTime feed else none) = .ok raw)
    (hval : feed.validate raw = false) :
    executeFeed now feed =
      (.error (.validationError
        ("Feed " ++ feed.name ++ " failed validation (no data returned)")),
       [.fetchCall (if feed.supportsIncremental then getLastRunTime feed else none),
        .updateStatus false 0
          (some ("Feed " ++ feed.name ++ " failed validation (no data returned)"))]) ∧
    FMEvent.saveRawData ∉ (executeFeed now feed).2 ∧
    (∀ ts, FMEvent.saveState ts ∉ (executeFeed now feed).2) := by
  have hmain : executeFeed now feed =
      (.error (.validationError
        ("Feed " ++ feed.name ++ " failed validation (no data returned)")),
       [.fetchCall (if feed.supportsIncremental then getLastRunTime feed else none),
        .updateStatus false 0
          (some ("Feed " ++ feed.name ++ " failed validation (no data returned)"))]) := by
    unfold executeFeed
    simp only [hfetch, hval]
    simp
  refine ⟨hmain, ?_, ?_⟩
  · rw [hmain]
    simp
  · intro ts
    rw [hmain]
    simp

/-- A stub feed whose fetch succeeds but whose validation rejects the
payload. -/
def feedC4 : MFeed :=
  ⟨"BadFeed", true, some "2024-01-01T00:00:00",
   fun _ => .ok (.dict [("data", .arr [])]), fun _ => false⟩

theorem C4_witness :
    feedC4.fetch
        (if feedC4.supportsIncremental then getLastRunTime feedC4 else none) =
      .ok (.dict [("data", .arr [])]) ∧
    feedC4.validate (.dict [("data", .arr [])]) = false ∧
    executeFeed "T" feedC4 =
      (.error (.validationError
        "Feed BadFeed failed validation (no data returned)"),
       [.fetchCall (some "2024-01-01T00:00:00"),
        .updateStatus false 0
          (some "Feed BadFeed failed validation (no data returned)")]) :=
  ⟨rfl, rfl, by
    have h := (C4_validation_failure_no_persistence feedC4 "T"
      (.dict [("data", .arr [])]) rfl rfl).1
    exact h⟩

/-- An IOC dict with no `"fingerprint"` key. -/
def iocNoFp : Ioc := { iocType := "domain", iocValue := "example.com" }

/-- An IOC with an empty (falsy) fingerprint value. -/
def iocEmptyFp : Ioc :=
  { iocType := "ip", iocValue := "1.2.3.4", fingerprint := some "" }

/-- Two IOCs carrying ordinary (truthy) fingerprints. -/
def iocA : Ioc := { iocType := "ip", iocValue := "1.2.3.4",
                    fingerprint := some "fp-a" }

def iocB : Ioc := { iocType := "domain", iocValue := "example.com",
                    fingerprint := some "fp-b" }

/-- C3 counterexample: a batch holding one fingerprint-less IOC is admitted
again in full on the second pass (with the cache carried over unmodified),
so the second pass does not admit zero items. -/
theorem C3_counterexample :
    (deduplicate (deduplicate [] [iocNoFp]).2.2 [iocNoFp]).1 = [iocNoFp] ∧
    [iocNoFp] ≠ ([] : List Ioc) := by
  constructor
  · rfl
  · simp

/-- C3 (amended): For every batch of IOCs all of which carry a non-falsy
fingerprint, feeding the batch through `Deduplicator.deduplicate` twice with
the cache unmodified between the calls yields zero admitted items on the
second pass; and (for every batch whatsoever) the first pass preserves the
input order among the items it admits. -/
theorem C3_amended_second_pass_empty (seen : List String) (iocs : List Ioc)
    (h : ∀ ioc ∈ iocs, fpFalsy ioc = false) :
    (deduplicate (deduplicate seen iocs).2.2 iocs).1 = [] ∧
    (deduplicate seen iocs).1.Sublist iocs :=
  ⟨deduplicate_twice_empty seen iocs h, deduplicate_sublist seen iocs⟩

theorem C3_witness :
    (deduplicate (deduplicate [] [iocA, iocB]).2.2 [iocA, iocB]).1 = [] ∧
    (deduplicate [] [iocA, iocB]).1.Sublist [iocA, iocB] :=
  C3_amended_second_pass_empty [] [iocA, iocB] (by decide)

/-- C10: For every batch passed to `Deduplicator.deduplicate`, every item
that lacks a `"fingerprint"` key (or whose fingerprint is falsy) is
unconditionally included in the output and is never recorded in the
seen-fingerprint cache — the falsy-fingerprint part of the output equals the
falsy-fingerprint part of the input for an arbitrary starting cache (hence
such items are re-admitted on every subsequent call), and the updated cache
holds only previously seen fingerprints and non-falsy fingerprints of batch
items. -/
theorem C10_falsy_items_pass_through (seen : List String) (iocs : List Ioc) :
    ((deduplicate seen iocs).1.filter fpFalsy = iocs.filter fpFalsy) ∧
    (∀ ioc ∈ iocs, fpFalsy ioc = true → ioc ∈ (deduplicate seen iocs).1) ∧
    (∀ fp ∈ (deduplicate seen iocs).2.2,
      fp ∈ seen ∨ ∃ ioc ∈ iocs, fpValue ioc = some fp ∧ fp ≠ "") := by
  have hfilter := dedupAux_filter_falsy iocs [] false seen
  refine ⟨by simpa using hfilter, ?_, ?_⟩
  · intro ioc hmem hfalsy
    have h1 : ioc ∈ iocs.filter fpFalsy := List.mem_filter.mpr ⟨hmem, hfalsy⟩
    rw [show iocs.filter fpFalsy = (deduplicate seen iocs).1.filter fpFalsy by
      simpa using hfilter.symm] at h1
    exact List.mem_of_mem_filter h1
  · intro fp hfp
    exact dedupAux_seen_sources iocs [] false seen hfp

theorem C10_witness :
    iocNoFp ∈ (deduplicate ["fp-a"] [iocNoFp, iocEmptyFp, iocA]).1 ∧
    iocEmptyFp ∈ (deduplicate ["fp-a"] [iocNoFp, iocEmptyFp, iocA]).1 ∧
    ("" ∉ (deduplicate ["fp-a"] [iocNoFp, iocEmptyFp, iocA]).2.2) :=
  ⟨(C10_falsy_items_pass_through ["fp-a"] [iocNoFp, iocEmptyFp, iocA]).2.1
      iocNoFp (by decide) (by decide),
   (C10_falsy_items_pass_through ["fp-a"] [iocNoFp, iocEmptyFp, iocA]).2.1
      iocEmptyFp (by decide) (by decide),
   by
    intro hmem
    rcases (C10_falsy_items_pass_through ["fp-a"] [iocNoFp, iocEmptyFp, iocA]).2.2
        "" hmem with h | ⟨ioc, hioc, -, hne⟩
    · simp at h
    · exact hne rfl⟩

/-- Splitting a concatenation at a separator absent from both left parts is
unambiguous. -/
theorem append_sep_inj {c : Char} : ∀ (a b x y : List Char), c ∉ a → c ∉ b →
    a ++ c :: x = b ++ c :: y → a = b ∧ x = y := by
  intro a
  induction a with
  | nil =>
    intro b x y _ hb h
    cases b with
    | nil =>
      simp only [List.nil_append] at h
      injection h with h1 h2
      exact ⟨rfl, h2⟩
    | cons d b' =>
      simp only [List.nil_append, List.cons_append] at h
      injection h with h1 h2
      exact absurd (h1 ▸ List.mem_cons_self d b') hb
  | cons hd a' ih =>
    intro b x y ha hb h
    cases b with
    | nil =>
      simp only [List.cons_append, List.nil_append] at h
      injection h with h1 h2
      exact absurd (h1 ▸ List.mem_cons_self hd a') ha
    | cons d b' =>
      simp only [List.cons_append] at h
      injection h with h1 h2
      rcases ih b' x y (fun hm => ha (List.mem_cons_of_mem _ hm))
          (fun hm => hb (List.mem_cons_of_mem _ hm)) h2 with ⟨h3, h4⟩
      exact ⟨by rw [h1, h3], h4⟩

/-- C2 counterexample: `generateFingerprint` maps an infinite input space
into the 2^256 possible SHA-256 digests, so distinct (type, canonical value)
pairs with identical fingerprints exist — the claimed universal distinctness
of fingerprints is false (its failure instances are hash collisions, which
exist although none is explicitly known). -/
theorem C2_counterexample :
    ∃ t1 v1 t2 v2 : String, (t1, v1) ≠ (t2, v2) ∧
      generateFingerprint t1 v1 = generateFingerprint t2 v2 := by
  have hfin : ∀ n : Nat,
      hash8Nat (sha256Bytes (utf8Bytes
        (fingerprintInput "ip" (String.mk (List.replicate n 'a'))))) < 2 ^ 256 :=
    fun _ => hash8Nat_lt (sha256Bytes_bounded _)
  obtain ⟨n, m, hnm, hf⟩ :=
    Finite.exists_ne_map_eq_of_infinite fun n : Nat =>
      (⟨hash8Nat (sha256Bytes (utf8Bytes
        (fingerprintInput "ip" (String.mk (List.replicate n 'a'))))),
        hfin n⟩ : Fin (2 ^ 256))
  refine ⟨"ip", String.mk (List.replicate n 'a'),
          "ip", String.mk (List.replicate m 'a'), ?_, ?_⟩
  · intro hcon
    apply hnm
    have h2 := congrArg Prod.snd hcon
    simp only at h2
    have h3 : List.replicate n 'a' = List.replicate m 'a' := by
      injection h2
    have h4 := congrArg List.length h3
    simpa using h4
  · have hval := congrArg Fin.val hf
    simp only at hval
    exact congrArg toHex64 hval

/-- C2 (amended): `generateFingerprint` is deterministic (it is a pure
function of the type and canonical value), and is type-aware injectively at
the level of the hashed content: whenever the type (which never contains a
colon — the system's types are `ip`, `domain`, `url`, `hash`, `md5`, `sha1`,
`sha256`, `cve`, `email`) or the canonical value differ, the strings
`"{type}:{value}"` fed to SHA-256 differ; distinctness of the 256-bit
fingerprints themselves holds only up to SHA-256 collisions. -/
theorem C2_amended_fingerprint_inputs_injective :
    (∀ t v : String, generateFingerprint t v = generateFingerprint t v) ∧
    (∀ t1 v1 t2 v2 : String, ':' ∉ t1.data → ':' ∉ t2.data →
      (t1, v1) ≠ (t2, v2) → fingerprintInput t1 v1 ≠ fingerprintInput t2 v2) := by
  refine ⟨fun _ _ => rfl, ?_⟩
  intro t1 v1 t2 v2 h1 h2 hne heq
  apply hne
  unfold fingerprintInput at heq
  have hdata := congrArg String.data heq
  simp only [String.data_append, List.append_assoc, List.singleton_append] at hdata
  rcases append_sep_inj t1.data t2.data v1.data v2.data h1 h2 hdata with ⟨ha, hb⟩
  have ht : t1 = t2 := by
    cases t1
    cases t2
    exact congrArg String.mk (by simpa using ha)
  have hv : v1 = v2 := by
    cases v1
    cases v2
    exact congrArg String.mk (by simpa using hb)
  rw [ht, hv]

theorem C2_witness :
    fingerprintInput "ip" "1.2.3.4" ≠ fingerprintInput "domain" "1.2.3.4" :=
  C2_amended_fingerprint_inputs_injective.2 "ip" "1.2.3.4" "domain" "1.2.3.4"
    (by decide) (by decide) (by decide)

/-- C6: For every streamed response read in fixed-size chunks, if the
accumulated size exceeds the 10 MB hard cap the read raises the
response-too-large error before completing (as soon as the cap-crossing
prefix has been consumed, independently of the remaining chunks), and for
every response whose total size is at most the cap the read completes
without raising. -/
theorem C6_response_size_cap (chunks : List (List Nat)) :
    ((chunks.map List.length).sum > maxResponseSize →
      safeReadResponse chunks =
        .error (.responseTooLarge "Response exceeded safety limit (10MB).")) ∧
    ((chunks.map List.length).sum ≤ maxResponseSize →
      ∃ s, safeReadResponse chunks = .ok s) ∧
    (∀ p rest, chunks = p ++ rest → (p.map List.length).sum > maxResponseSize →
      safeReadResponse chunks = safeReadResponse p) := by
  refine ⟨?_, ?_, ?_⟩
  · intro h
    exact safeReadAux_error_of_large chunks 0 [] (Nat.zero_le _) (by simpa using h)
  · intro h
    exact safeReadAux_ok_of_small chunks 0 [] (by simpa using h)
  · intro p rest hsplit h
    have hp : safeReadResponse p =
        .error (.responseTooLarge "Response exceeded safety limit (10MB).") :=
      safeReadAux_error_of_large p 0 [] (Nat.zero_le _) (by simpa using h)
    rw [hsplit]
    rw [show safeReadResponse (p ++ rest) = safeReadAux (p ++ rest) 0 [] from rfl]
    rw [safeReadAux_extend_error p rest 0 [] hp]
    rw [hp]

theorem C6_witness :
    safeReadResponse (List.replicate 1408 (List.replicate 8192 0)) =
      .error (.responseTooLarge "Response exceeded safety limit (10MB).") ∧
    (∃ s, safeReadResponse [[104, 105]] = .ok s) := by
  constructor
  · apply (C6_response_size_cap (List.replicate 1408 (List.replicate 8192 0))).1
    simp only [List.map_replicate, List.length_replicate, List.sum_replicate,
      smul_eq_mul]
    norm_num [maxResponseSize]
  · apply (C6_response_size_cap [[104, 105]]).2.1
    norm_num [maxResponseSize]

/-- C7: For every scheduled task, two executions of the same task never
overlap (at most one execution is ever in flight, the `is_running` flag
counting it exactly), a task whose `is_running` flag is set at its due time
is skipped for that tick (the tick leaves the state untouched and starts
nothing), and `next_run` is always advanced from the wall-clock time the
task finishes plus the interval — not from when it was due. -/
theorem C7_no_overlapping_runs (im : Nat) (en : Bool) (now0 : Nat)
    (evs : List SEv) :
    ((schedRun (scheduleTask im en now0) evs).active ≤ 1) ∧
    (∀ t, (schedRun (scheduleTask im en now0) evs).task.isRunning = true →
      schedStep (schedRun (scheduleTask im en now0) evs) (.tick t) =
        schedRun (scheduleTask im en now0) evs) ∧
    (∀ t failed,
      (schedRun (scheduleTask im en now0) evs).task.isRunning = true →
      (schedStep (schedRun (scheduleTask im en now0) evs)
          (.finish t failed)).task.nextRun =
        t + (schedRun (scheduleTask im en now0) evs).task.intervalSeconds) := by
  have hinit : (scheduleTask im en now0).Consistent := by
    unfold SchedState.Consistent scheduleTask
    simp
  have hc := schedRun_consistent (scheduleTask im en now0) hinit evs
  unfold SchedState.Consistent at hc
  refine ⟨?_, ?_, ?_⟩
  · rw [hc]
    split <;> omega
  · intro t hrun
    show loopTick t (schedRun (scheduleTask im en now0) evs) =
      schedRun (scheduleTask im en now0) evs
    unfold loopTick
    rw [if_neg]
    simp [hrun]
  · intro t failed hrun
    rw [hrun] at hc
    simp at hc
    show (taskFinish t failed
        (schedRun (scheduleTask im en now0) evs)).task.nextRun = _
    unfold taskFinish
    rw [if_neg (by omega)]

theorem C7_witness :
    (schedStep (schedRun (scheduleTask 1 true 0) [SEv.tick 0]) (.tick 60) =
      schedRun (scheduleTask 1 true 0) [SEv.tick 0]) ∧
    ((schedStep (schedRun (scheduleTask 1 true 0) [SEv.tick 0])
        (.finish 70 false)).task.nextRun =
      70 + (schedRun (scheduleTask 1 true 0) [SEv.tick 0]).task.intervalSeconds) :=
  ⟨(C7_no_overlapping_runs 1 true 0 [SEv.tick 0]).2.1 60 (by decide),
   (C7_no_overlapping_runs 1 true 0 [SEv.tick 0]).2.2 70 false (by decide)⟩

/-- C8 counterexample: (a) `http://abc.ONION/page` identifies a `.onion`
destination (host names are case-insensitive), yet with the anti-bot bypass
requested `SecureHTTPClient.fetch` routes it through the Cloudflare scraper —
the `is_onion` guard misses it because `.endswith(".onion")` sees the path
and the `".onion/" in url` test is case-sensitive; (b) a `TorHTTPClient`
request (SOCKS proxies always attached) to a `ransomware.live` URL is sent
through the Cloudflare scraper even though the Tor client forces
`bypass_cloudflare=False`, because of the hard-coded
`"ransomware.live" in url` escape. -/
theorem C8_counterexample :
    (isOnionDest "http://abc.ONION/page" = true ∧
     secureFetchTransport "http://abc.ONION/page" true = .cloudflareScraper) ∧
    (torFetch "https://www.ransomware.live/api" =
      ⟨.cloudflareScraper, true⟩) := by
  refine ⟨⟨?_, ?_⟩, ?_⟩ <;> decide

/-- C8 (amended): For every URL that the code's `is_onion` predicate
recognises (trimmed lower-cased URL ending in `.onion`, or containing the
case-sensitive substring `".onion/"`), `SecureHTTPClient.fetch` never uses
the anti-bot (Cloudflare-bypass) transport — even when the bypass is
explicitly requested — and the anonymizing-proxy client's requests to such
URLs also go through the standard proxied session.  (URLs escaping that
predicate — mixed-case `.onion` hosts — and `ransomware.live` URLs issued
through the proxy client are the exceptions exhibited by the
counterexample.) -/
theorem C8_amended_onion_never_cloudflare (url : String) (bypass : Bool)
    (h : isOnionUrl url = true) :
    secureFetchTransport url bypass = .standardSession ∧
    (torFetch url).transport = .standardSession := by
  constructor
  · unfold secureFetchTransport
    rw [if_neg]
    simp [h]
  · show secureFetchTransport url false = .standardSession
    unfold secureFetchTransport
    rw [if_neg]
    simp [h]

theorem C8_witness :
    isOnionUrl "http://example.onion/leaks" = true ∧
    secureFetchTransport "http://example.onion/leaks" true = .standardSession ∧
    (torFetch "http://example.onion/leaks").transport = .standardSession :=
  ⟨by decide,
   (C8_amended_onion_never_cloudflare "http://example.onion/leaks" true
     (by decide)).1,
   (C8_amended_onion_never_cloudflare "http://example.onion/leaks" true
     (by decide)).2⟩

/-- C9: For every IOC, the risk score is monotonically non-decreasing as
more metadata entries (in particular high-weight keywords such as
`ransomware` or `campaign`) are added under fresh keys, the score is always
clamped to [0, 100], and the exploitability factor is the maximum of the
matched keyword factors rather than their sum. -/
theorem C9_risk_monotone_clamped_max_factor :
    (∀ (ioc : Ioc) (extra : List (String × String)),
      (∀ kv ∈ extra, pyGet ioc.metadata kv.1 = none) →
      (RiskEngine.calculateRisk ioc).riskScore ≤
        (RiskEngine.calculateRisk
          { ioc with metadata := ioc.metadata ++ extra }).riskScore) ∧
    (∀ ioc : Ioc, (RiskEngine.calculateRisk ioc).riskScore ≤ 100) ∧
    (∀ ioc : Ioc, (RiskEngine.calculateRisk ioc).breakdown.exploitability =
      (matchedFactors (asciiLower ioc.iocType)
        (metadataStr ioc.metadata)).foldr max 0) := by
  refine ⟨?_, ?_, ?_⟩
  · intro ioc extra _
    show min (sourceScoreOf (asciiLower (ioc.source.getD "unknown")) +
        exploitScoreOf (asciiLower ioc.iocType) (metadataStr ioc.metadata) +
        sectorScoreOf (metadataStr ioc.metadata) +
        actorScoreOf ioc.metadata) 100 ≤
      min (sourceScoreOf (asciiLower (ioc.source.getD "unknown")) +
        exploitScoreOf (asciiLower ioc.iocType)
          (metadataStr (ioc.metadata ++ extra)) +
        sectorScoreOf (metadataStr (ioc.metadata ++ extra)) +
        actorScoreOf (ioc.metadata ++ extra)) 100
    refine min_le_min ?_ le_rfl
    have h1 := exploitScoreOf_mono (asciiLower ioc.iocType) ioc.metadata extra
    have h2 := sectorScoreOf_mono ioc.metadata extra
    have h3 := actorScoreOf_mono ioc.metadata extra
    omega
  · intro ioc
    show min (sourceScoreOf (asciiLower (ioc.source.getD "unknown")) +
        exploitScoreOf (asciiLower ioc.iocType) (metadataStr ioc.metadata) +
        sectorScoreOf (metadataStr ioc.metadata) +
        actorScoreOf ioc.metadata) 100 ≤ 100
    exact min_le_right _ _
  · intro ioc
    show exploitScoreOf (asciiLower ioc.iocType) (metadataStr ioc.metadata) =
      (matchedFactors (asciiLower ioc.iocType)
        (metadataStr ioc.metadata)).foldr max 0
    exact exploitScoreOf_eq_max_matched _ _

/-- A sample IOC and a metadata extension carrying high-weight keywords. -/
def iocC9 : Ioc :=
  { iocType := "cve", iocValue := "CVE-2024-1234",
    source := some "cisa_kev", metadata := [("note", "observed in the wild")] }

def extraC9 : List (String × String) :=
  [("threat", "ransomware campaign"), ("group", "lockbit")]

theorem C9_witness :
    (RiskEngine.calculateRisk iocC9).riskScore ≤
      (RiskEngine.calculateRisk
        { iocC9 with metadata := iocC9.metadata ++ extraC9 }).riskScore ∧
    (RiskEngine.calculateRisk iocC9).riskScore ≤ 100 :=
  ⟨C9_risk_monotone_clamped_max_factor.1 iocC9 extraC9 (by decide),
   C9_risk_monotone_clamped_max_factor.2.1 iocC9⟩

theorem runAll_foldl_length (cache : List String) (parsers : ParserSet)
    (feeds : List PFeed) :
    ∀ acc : List PFResult × List String × List PEvent,
    (feeds.foldl
      (fun acc f =>
        if isFeedEnabled cache f.name then
          let pr := processFeed parsers acc.2.1 f
          (acc.1 ++ [pr.1], pr.2.1, acc.2.2 ++ pr.2.2)
        else acc) acc).1.length =
      acc.1.length + (feeds.filter fun f => isFeedEnabled cache f.name).length := by
  induction feeds with
  | nil => intro acc; simp
  | cons f rest ih =>
    intro acc
    simp only [List.foldl_cons, List.filter_cons]
    by_cases hE : isFeedEnabled cache f.name = true
    · simp only [hE, if_true]
      rw [ih]
      simp only [List.length_append, List.length_cons, List.length_nil]
      omega
    · rw [Bool.not_eq_true] at hE
      simp only [hE, Bool.false_eq_true, if_false]
      rw [ih]

/-- The pipeline object's parsers for the scenario runs (their output is
irrelevant to the ransomware-routed scenario feeds). -/
def scenarioParsers : ParserSet := ⟨fun _ => [], fun _ => []⟩

/-- A ransomware-routed feed whose fetch yields an empty detections map. -/
def feedS1 : PFeed := ⟨"Ransomware_Live", .ok (.dict [("detections", .dict [])])⟩

/-- The scenario's second feed: its execution raises the validation error. -/
def feedS2 : PFeed :=
  ⟨"Ransomware_Tor",
   .error (.validationError
     "Feed Ransomware_Tor failed validation (no data returned)")⟩

/-- A third succeeding feed. -/
def feedS3 : PFeed := ⟨"Ransomware_Watch", .ok (.dict [("detections", .dict [])])⟩

/-- A registered-but-disabled feed, which `run_all_feeds` must skip. -/
def feedSkip : PFeed := ⟨"DisabledFeed", .ok .null⟩

def scenarioEnabled : List String :=
  ["Ransomware_Live", "Ransomware_Tor", "Ransomware_Watch"]

/-- The summary of the three-enabled-feed scenario run (with a fourth,
disabled feed interleaved). -/
def scenarioSummary : RunSummary :=
  (runAllFeeds scenarioParsers scenarioEnabled "2024-03-03T00:00:00" []
    [feedS1, feedS2, feedSkip, feedS3]).1

/-- C5 counterexample: the aggregate returned by `run_all_feeds` is the dict
`{"execution_time": ..., "results": ...}` — it carries a timestamp and the
per-feed results but no success/total counts, so the claimed aggregate
success/total counts are absent (here on a concrete three-feed run whose
second feed fails validation). -/
theorem C5_counterexample :
    scenarioSummary.toDict.map Prod.fst = ["execution_time", "results"] ∧
    (∀ k ∈ scenarioSummary.toDict.map Prod.fst,
      k ≠ "success_count" ∧ k ≠ "total" ∧ k ≠ "successes" ∧ k ≠ "failures") := by
  constructor
  · rfl
  · decide

/-- C5 (amended): `run_all_feeds` skips every feed not currently enabled
(the results list has exactly one entry per enabled feed, in order) and
returns an aggregate summary containing a timestamp and the per-feed results
— but no aggregate success/total counts, which are only derivable from the
per-feed results.  In the scenario run over three enabled feeds whose second
raises a validation error, the per-feed results hold exactly 2 successes and
1 failure, and the failure's error message contains the validation failure
context. -/
theorem C5_amended_summary_shape :
    (∀ (parsers : ParserSet) (cache : List String) (now : String)
        (seen : List String) (feeds : List PFeed),
      (runAllFeeds parsers cache now seen feeds).1.results.length =
        (feeds.filter fun f => isFeedEnabled cache f.name).length) ∧
    (∀ (parsers : ParserSet) (cache : List String) (now : String)
        (seen : List String) (feeds : List PFeed),
      (runAllFeeds parsers cache now seen feeds).1.toDict.map Prod.fst =
        ["execution_time", "results"]) ∧
    ((scenarioSummary.results.filter fun r => r.success).length = 2 ∧
     (scenarioSummary.results.filter fun r => !r.success).length = 1 ∧
     (∀ r ∈ scenarioSummary.results, r.success = false →
       containsSub "failed validation" (r.error.getD "") = true)) := by
  refine ⟨?_, ?_, ?_⟩
  · intro parsers cache now seen feeds
    have h := runAll_foldl_length cache parsers feeds ([], seen, [])
    simpa [runAllFeeds] using h
  · intro parsers cache now seen feeds
    rfl
  · refine ⟨by decide, by decide, by decide⟩

theorem C5_witness :
    containsSub "failed validation"
      ((scenarioSummary.results.getD 1
        ⟨true, none, none, none, none, none⟩).error.getD "") = true :=
  C5_amended_summary_shape.2.2.2.2
    (scenarioSummary.results.getD 1 ⟨true, none, none, none, none, none⟩)
    (by decide) (by decide)

end CTI
